import Mathlib

/-!
Verification development for the INV-Tracker inventory reconciliation dashboard.

The definitions below are a shallow embedding of `src/app.component.ts`:
its aggregation routine `processData`, the derived filter/sort/paginate views,
the pagination handlers, and the two CSV export routines.

Modelling conventions, chosen to match the TypeScript runtime semantics on the
fragment the program actually exercises:
* table cells are strings (`Row := List String`); a missing cell
  (index out of range, or column index `-1` for an absent optional column)
  behaves like JavaScript `undefined` and is modelled by `Option`;
* JavaScript numbers that are not NaN are modelled by `JsNum` (a finite `ℚ`
  or one of the two infinities); `Number(s)` is `jsNumberFull`, modelled on
  exponent-free decimal literals plus the `Infinity` spellings
  (empty/whitespace-only strings evaluate to 0, anything else to NaN =
  `none`); `jsNumber` is by definition its finite part.  The aggregation
  pipeline appears twice: once restricted to finite quantities (`processData`
  over `ℚ`, the subject of the quantitative claims), and once over the full
  non-NaN domain (`processDataFull`, the subject of the admission claim,
  since the code's only quantity guard is `isNaN` and so admits rows whose
  quantity is `±Infinity`);
* `new Date(s).getTime()` is modelled on ISO `YYYY-MM-DD` strings by a
  strictly monotone integer encoding; any other string is an invalid date
  (`none`), whose comparator result is 0 exactly as the ECMAScript `SortCompare`
  maps a NaN comparator result to `+0`;
* a JavaScript `Map` is an insertion-ordered association list;
* `Array.prototype.sort` is required by ECMAScript to be a stable sort and is
  modelled by a stable insertion sort on the source's comparator;
* `localeCompare` is modelled as code-point lexicographic comparison, and a
  numeric comparator `a - b` by its sign.
-/

namespace InvTracker

/-- JavaScript whitespace characters handled by `trim()` (ASCII fragment). -/
def jsSpace (c : Char) : Bool :=
  c = ' ' || c = '\t' || c = '\n' || c = '\r' || c = '\x0b' || c = '\x0c'

/-- Model of `String.prototype.trim`. -/
def jsTrim (s : String) : String :=
  String.mk (((s.toList.dropWhile jsSpace).reverse.dropWhile jsSpace).reverse)

/-- A raw table row: the cells, in header order.  Cells are strings; a row may
be shorter than the header list (missing cells read as `undefined`). -/
abbrev Row := List String

/-- Model of `row[i]` for a possibly negative index: JavaScript yields
`undefined` (here `none`) for `-1` and for off-the-end indices. -/
def getCell (row : Row) (i : Int) : Option String :=
  if 0 ≤ i then row[i.toNat]? else none

/-- Model of `Array.prototype.indexOf` on the header list: first index of the
name, `-1` when absent. -/
def jsIndexOf (headers : List String) (name : String) : Int :=
  match headers with
  | [] => -1
  | h :: t =>
    if h = name then 0
    else
      let r := jsIndexOf t name
      if r < 0 then -1 else r + 1

/-- Value of a digit list read in base 10. -/
def digitsToNat (cs : List Char) : Nat :=
  cs.foldl (fun a c => a * 10 + (c.toNat - 48)) 0

/-- Unsigned decimal literal: digits, with at most one decimal point and at
least one digit overall. -/
def parseUnsignedDec (cs : List Char) : Option ℚ :=
  let intPart := cs.takeWhile (fun c => c ≠ '.')
  let rest := cs.dropWhile (fun c => c ≠ '.')
  if intPart.all Char.isDigit then
    match rest with
    | [] => if intPart.isEmpty then none else some ((digitsToNat intPart : ℕ) : ℚ)
    | _ :: frac =>
      if frac.all Char.isDigit && (!intPart.isEmpty || !frac.isEmpty) then
        some ((digitsToNat intPart : ℕ) + ((digitsToNat frac : ℕ) : ℚ) / (10 : ℚ) ^ frac.length)
      else none
  else none

/-- A JavaScript number that is not NaN: a finite value or one of the two
infinities.  `Number` can produce the infinities (e.g. from the literal
`"Infinity"`), and the aggregation guard `isNaN` admits them, so the
admission path must distinguish NaN from infinite. -/
inductive JsNum
  | fin (q : ℚ)
  | posInf
  | negInf
deriving DecidableEq

/-- Model of JavaScript `Number(s)` on strings: the input is trimmed; empty
yields `0`; the `Infinity` spellings yield the infinities; an optionally
signed decimal literal yields its (finite) value; everything else is NaN,
modelled as `none`.  Fragment: exponent-free decimal literals plus the
`Infinity` spellings (JavaScript also reaches `Infinity` through overflowing
exponent literals such as `"1e400"`; that non-finite outcome is represented
here by the `Infinity` spellings). -/
def jsNumberFull (s : String) : Option JsNum :=
  match (jsTrim s).toList with
  | [] => some (JsNum.fin 0)
  | '-' :: cs =>
    if cs = "Infinity".toList then some JsNum.negInf
    else (parseUnsignedDec cs).map (fun q => JsNum.fin (-q))
  | '+' :: cs =>
    if cs = "Infinity".toList then some JsNum.posInf
    else (parseUnsignedDec cs).map JsNum.fin
  | cs =>
    if cs = "Infinity".toList then some JsNum.posInf
    else (parseUnsignedDec cs).map JsNum.fin

/-- The finite part of a non-NaN JavaScript number. -/
def jsNumFin : JsNum → Option ℚ
  | JsNum.fin q => some q
  | _ => none

/-- The finite parse: `some q` exactly when `Number(s)` is the finite number
`q`; `none` when `Number(s)` is NaN or an infinity.  The finite-quantity
development below is phrased through this restriction; the program's actual
admission guard (`isNaN` only) is `(jsNumberFull s).isSome` and is the
subject of the full pipeline further down. -/
def jsNumber (s : String) : Option ℚ :=
  (jsNumberFull s).bind jsNumFin

/-- `Number(cell)`: `Number(undefined)` is NaN. -/
def jsNumberCell (c : Option String) : Option ℚ :=
  match c with
  | none => none
  | some s => jsNumber s

/-- Split a character list on a separator character. -/
def splitOnChar (c : Char) : List Char → List (List Char)
  | [] => [[]]
  | x :: t =>
    let r := splitOnChar c t
    if x = c then [] :: r
    else
      match r with
      | [] => [[x]]
      | h :: t2 => (x :: h) :: t2

/-- Model of `new Date(s).getTime()` on ISO `YYYY-MM-DD` strings: a strictly
monotone integer encoding of the calendar date.  Other strings give an invalid
date (`none`, i.e. a NaN timestamp). -/
def parseIsoDate (s : String) : Option Int :=
  match splitOnChar '-' s.toList with
  | [y, m, d] =>
    if y.length = 4 ∧ y.all Char.isDigit ∧ m.length = 2 ∧ m.all Char.isDigit
        ∧ d.length = 2 ∧ d.all Char.isDigit then
      let mv := digitsToNat m
      let dv := digitsToNat d
      if 1 ≤ mv ∧ mv ≤ 12 ∧ 1 ≤ dv ∧ dv ≤ 31 then
        some ((digitsToNat y : Int) * 10000 + (mv : Int) * 100 + (dv : Int))
      else none
    else none
  | _ => none

/-- Timestamp of an optional posting-date cell (`new Date(undefined)` is also
an invalid date). -/
def jsDateValue (o : Option String) : Option Int :=
  o.bind parseIsoDate

/-- Model of the JavaScript truthiness idiom `cell || dflt` for an optional
string cell: `undefined` and `""` are falsy. -/
def jsOr (o : Option String) (dflt : String) : String :=
  match o with
  | none => dflt
  | some s => if s = "" then dflt else s

/-- Search for `pat` as a contiguous run inside the second list. -/
def subSearch (pat : List Char) : List Char → Bool
  | [] => pat.isEmpty
  | c :: t => pat.isPrefixOf (c :: t) || subSearch pat t

/-- Whether `pat` occurs as a contiguous substring of `s` (model of
`String.prototype.includes`). -/
def strContains (s pat : String) : Bool :=
  subSearch pat.toList s.toList

/-- The inbound data contract: `{ headers: string[], rows: cell[][] }`. -/
structure InventoryResponse where
  headers : List String
  rows : List Row
deriving DecidableEq

/-- One movement event, as stored by `processData`. -/
structure Transaction where
  postingDate : Option String
  quantity : ℚ
  user : String
  costCenter : String
  reservation : String
  document : String
  headerText : String
  text : String
deriving DecidableEq

/-- The per-material accumulator held in the summary map (the
`Omit<MaterialSummary, 'material'>` value type of `summaryMap`). -/
structure SummaryData where
  materialDescription : String
  totalIn : ℚ
  totalOut : ℚ
  balance : ℚ
  unit : String
  inTransactions : List Transaction
  outTransactions : List Transaction
deriving DecidableEq

/-- One per distinct material: the normalized summary record. -/
structure MaterialSummary where
  material : String
  materialDescription : String
  totalIn : ℚ
  totalOut : ℚ
  balance : ℚ
  unit : String
  inTransactions : List Transaction
  outTransactions : List Transaction
deriving DecidableEq

/-- Resolved column indices (`headers.indexOf(...)`; `-1` when absent). -/
structure ColumnIndices where
  materialIdx : Int
  descriptionIdx : Int
  quantityIdx : Int
  unitIdx : Int
  movementTypeIdx : Int
  userIdx : Int
  postingDateIdx : Int
  costCenterIdx : Int
  reservationIdx : Int
  docIdx : Int
  headerTextIdx : Int
  textIdx : Int
deriving DecidableEq

/-- The required-column contract of the row normalizer. -/
def requiredColumns : List String :=
  ["Material", "Material Description", "Quantity", "Unit of Entry", "Movement Type"]

/-- Column resolution performed at the top of `processData`. -/
def mkIndices (headers : List String) : ColumnIndices :=
  { materialIdx := jsIndexOf headers "Material"
    descriptionIdx := jsIndexOf headers "Material Description"
    quantityIdx := jsIndexOf headers "Quantity"
    unitIdx := jsIndexOf headers "Unit of Entry"
    movementTypeIdx := jsIndexOf headers "Movement Type"
    userIdx := jsIndexOf headers "User Name"
    postingDateIdx := jsIndexOf headers "Posting Date"
    costCenterIdx := jsIndexOf headers "Cost Center"
    reservationIdx := jsIndexOf headers "Reservation"
    docIdx := jsIndexOf headers "Material Document"
    headerTextIdx := jsIndexOf headers "Document Header Text"
    textIdx := jsIndexOf headers "Text" }

/-! ### Insertion-ordered map (JavaScript `Map`) -/

/-- The summary map: insertion-ordered key/value pairs with unique keys. -/
abbrev SMap := List (String × SummaryData)

/-- `map.get(k)` / `map.has(k)`. -/
def alistLookup (m : SMap) (k : String) : Option SummaryData :=
  match m with
  | [] => none
  | (k₀, v₀) :: t => if k₀ = k then some v₀ else alistLookup t k

/-- In-place mutation of the entry at `k` (object mutation through
`summaryMap.get(material)!`); keys and their order are unchanged. -/
def alistUpdate (m : SMap) (k : String) (f : SummaryData → SummaryData) : SMap :=
  match m with
  | [] => []
  | (k₀, v₀) :: t => if k₀ = k then (k₀, f v₀) :: t else (k₀, v₀) :: alistUpdate t k f

/-! ### Stable sort on a JavaScript comparator

`Array.prototype.sort` with a comparator is specified to produce a stable
order consistent with the comparator; the algorithm itself is implementation
defined.  We model it as the stable insertion sort: an element is inserted
before the first position whose element is not strictly smaller. -/

/-- Insert `x` before the first `y` with `¬ (cmp y x < 0)` (`y` does not have
to come strictly before `x`). -/
def sortInsert (cmp : α → α → Int) (x : α) : List α → List α
  | [] => [x]
  | y :: ys => if cmp y x < 0 then y :: sortInsert cmp x ys else x :: y :: ys

/-- Stable sort by a JavaScript comparator. -/
def stableSort (cmp : α → α → Int) : List α → List α
  | [] => []
  | x :: xs => sortInsert cmp x (stableSort cmp xs)

/-- Comparator derived from an optional integer key in descending key order:
`(a, b) ↦ key b - key a`, with 0 (the ECMAScript `SortCompare` image of a NaN
comparator result) whenever either key is invalid. -/
def cmpOf (kf : α → Option Int) (a b : α) : Int :=
  match kf a, kf b with
  | some x, some y => y - x
  | _, _ => 0

/-- The posting-date timestamp key of a transaction. -/
def txDateKey (t : Transaction) : Option Int :=
  jsDateValue t.postingDate

/-- The transaction comparator
`(a, b) => new Date(b.postingDate).getTime() - new Date(a.postingDate).getTime()`. -/
def txCmp : Transaction → Transaction → Int :=
  cmpOf txDateKey

/-! ### The aggregator: `processData` -/

/-- The trimmed movement-type cell of a row (`undefined?.trim()` stays
`undefined`). -/
def trimmedMovement (idx : ColumnIndices) (r : Row) : Option String :=
  (getCell r idx.movementTypeIdx).map jsTrim

/-- The material cell of a row under the truthiness test of the source
(`undefined` and `""` both read as the empty material). -/
def rowMaterial (idx : ColumnIndices) (r : Row) : String :=
  jsOr (getCell r idx.materialIdx) ""

/-- The parsed quantity of a row (`none` = NaN). -/
def rowQty (idx : ColumnIndices) (r : Row) : Option ℚ :=
  jsNumberCell (getCell r idx.quantityIdx)

/-- `totalIn += quantity; inTransactions.push(tx)`. -/
def updIn (q : ℚ) (tx : Transaction) (d : SummaryData) : SummaryData :=
  { d with totalIn := d.totalIn + q, inTransactions := d.inTransactions ++ [tx] }

/-- `totalOut += Math.abs(quantity); outTransactions.push(tx)`. -/
def updOut (q : ℚ) (tx : Transaction) (d : SummaryData) : SummaryData :=
  { d with totalOut := d.totalOut + |q|, outTransactions := d.outTransactions ++ [tx] }

/-- The fresh accumulator entry created on first sight of a material
(lines 429–434 of the component). -/
def initSummary (idx : ColumnIndices) (row : Row) : SummaryData :=
  { materialDescription := jsOr (getCell row idx.descriptionIdx) "No Description"
    totalIn := 0
    totalOut := 0
    balance := 0
    unit := jsOr (getCell row idx.unitIdx) "N/A"
    inTransactions := []
    outTransactions := [] }

/-- The transaction record built from an admitted row.  `cc` is the static
cost-center code → display-name table.
Modelled from the spec: the cost-center lookup table (`./data/cost-centers`,
absent from `src/`) is an injected pure mapping; an unmapped or empty display
name falls back to the raw (untrimmed) code, per `costCenterMap[code.trim()]
|| code`. -/
def mkTransaction (cc : String → Option String) (idx : ColumnIndices) (row : Row)
    (quantity : ℚ) : Transaction :=
  let costCenterCode := jsOr (getCell row idx.costCenterIdx) ""
  { postingDate := getCell row idx.postingDateIdx
    quantity := |quantity|
    user := jsOr (getCell row idx.userIdx) ""
    costCenter :=
      match cc (jsTrim costCenterCode) with
      | some name => if name = "" then costCenterCode else name
      | none => costCenterCode
    reservation := jsOr (getCell row idx.reservationIdx) ""
    document := jsOr (getCell row idx.docIdx) ""
    headerText := jsOr (getCell row idx.headerTextIdx) ""
    text := jsOr (getCell row idx.textIdx) "" }

/-- The body of the `for (const row of rows)` loop of `processData`.  The two
`continue` guards of the source are: movement type (trimmed) not in
`{"101","201"}`, and `!material || isNaN(quantity)` (here split into the
quantity match and the material test, which commute). -/
def processRow (cc : String → Option String) (idx : ColumnIndices) (m : SMap)
    (row : Row) : SMap :=
  match trimmedMovement idx row with
  | none => m
  | some movementType =>
    if movementType = "101" ∨ movementType = "201" then
      let material := rowMaterial idx row
      match rowQty idx row with
      | none => m
      | some quantity =>
        if material = "" then m
        else
          let m1 := if (alistLookup m material).isSome then m
                    else m ++ [(material, initSummary idx row)]
          let tx := mkTransaction cc idx row quantity
          if movementType = "101" then alistUpdate m1 material (updIn quantity tx)
          else if movementType = "201" then alistUpdate m1 material (updOut quantity tx)
          else m1
    else m

/-- The final pass of `processData`: set `balance = totalIn - totalOut` and
sort both transaction lists descending by posting date. -/
def finalize (m : SMap) : List MaterialSummary :=
  m.map (fun p =>
    { material := p.1
      materialDescription := p.2.materialDescription
      totalIn := p.2.totalIn
      totalOut := p.2.totalOut
      balance := p.2.totalIn - p.2.totalOut
      unit := p.2.unit
      inTransactions := stableSort txCmp p.2.inTransactions
      outTransactions := stableSort txCmp p.2.outTransactions })

/-- The schema-error message thrown when a required column is missing. -/
def schemaErrorMessage : String :=
  "Data format is incorrect. Missing columns. Required: "
    ++ String.intercalate ", " requiredColumns ++ "."

/-- `processData`: header validation, then the aggregation fold, then the
finalizing pass.  A thrown error is modelled as `Except.error`. -/
def processData (cc : String → Option String) (resp : InventoryResponse) :
    Except String (List MaterialSummary) :=
  if (requiredColumns.map (jsIndexOf resp.headers)).any (fun i => i = -1) then
    Except.error schemaErrorMessage
  else
    Except.ok (finalize (resp.rows.foldl (processRow cc (mkIndices resp.headers)) []))

/-- The `next:` handler of `loadInventory` restricted to the state the claims
mention: on success the summary collection is replaced, on a thrown error the
message is surfaced and `inventoryData` is left untouched. -/
structure LoadState where
  inventoryData : List MaterialSummary
  error : Option String
deriving DecidableEq

/-- Effect of one successful fetch response on the load state. -/
def applyLoadResponse (cc : String → Option String) (st : LoadState)
    (resp : InventoryResponse) : LoadState :=
  match processData cc resp with
  | Except.ok d => { inventoryData := d, error := none }
  | Except.error e => { inventoryData := st.inventoryData, error := some e }

/-! ### Derived view pipeline -/

/-- The two sortable columns. -/
inductive SortColumn
  | materialDescription
  | balance
deriving DecidableEq

/-- Sort direction. -/
inductive SortDir
  | asc
  | desc
deriving DecidableEq

/-- Sort configuration signal. -/
structure SortConfig where
  column : SortColumn
  direction : SortDir
deriving DecidableEq

/-- The movement-type filter signal (`'all' | '101' | '201'`). -/
inductive MovementFilter
  | all
  | m101
  | m201
deriving DecidableEq

/-- The component state consumed by the computed view chain. -/
structure AppState where
  inventoryData : List MaterialSummary
  searchTerm : String
  movementTypeFilter : MovementFilter
  sortConfig : SortConfig
  showLowStockOnly : Bool
  currentPage : Int
deriving DecidableEq

/-- `itemsPerPage = 12`. -/
def itemsPerPage : Nat := 12

/-- `lowStockThreshold = 10`. -/
def lowStockThreshold : ℚ := 10

/-- The `baseFilteredInventory` computed signal: low-stock filter, then
movement-type filter, then case-insensitive substring search. -/
def baseFilteredInventory (s : AppState) : List MaterialSummary :=
  let term := s.searchTerm.toLower
  let d1 := if s.showLowStockOnly
            then s.inventoryData.filter (fun item => item.balance ≤ lowStockThreshold)
            else s.inventoryData
  let d2 := match s.movementTypeFilter with
            | MovementFilter.m101 => d1.filter (fun item => 0 < item.totalIn)
            | MovementFilter.m201 => d1.filter (fun item => 0 < item.totalOut)
            | MovementFilter.all => d1
  if term = "" then d2
  else d2.filter (fun item =>
    strContains item.material.toLower term || strContains item.materialDescription.toLower term)

/-- Sign of a rational difference: the sort decisions of the numeric
comparator `a - b` depend only on this sign. -/
def ratCmp (a b : ℚ) : Int :=
  if a < b then -1 else if b < a then 1 else 0

/-- Code-point lexicographic string comparison (model of `localeCompare`). -/
def strCmp : List Char → List Char → Int
  | [], [] => 0
  | [], _ :: _ => -1
  | _ :: _, [] => 1
  | a :: as, b :: bs =>
    if a.toNat < b.toNat then -1 else if b.toNat < a.toNat then 1 else strCmp as bs

/-- The configurable inventory comparator of the `sortedInventory` signal. -/
def invCmp (cfg : SortConfig) (a b : MaterialSummary) : Int :=
  let c := match cfg.column with
           | SortColumn.materialDescription =>
             strCmp a.materialDescription.toList b.materialDescription.toList
           | SortColumn.balance => ratCmp a.balance b.balance
  match cfg.direction with
  | SortDir.asc => c
  | SortDir.desc => -c

/-- The `sortedInventory` computed signal. -/
def sortedInventory (s : AppState) : List MaterialSummary :=
  stableSort (invCmp s.sortConfig) (baseFilteredInventory s)

/-- ECMAScript `Array.prototype.slice` index resolution: negative indices
count from the end, and both indices clamp to `[0, len]`. -/
def jsSliceIndex (len : Nat) (i : Int) : Nat :=
  if i < 0 then (len + i).toNat
  else if i ≤ (len : Int) then i.toNat else len

/-- Model of `l.slice(a, b)`. -/
def jsSlice (l : List α) (a b : Int) : List α :=
  (l.drop (jsSliceIndex l.length a)).take (jsSliceIndex l.length b - jsSliceIndex l.length a)

/-- The `paginatedInventory` computed signal:
`sorted.slice((page-1)*12, (page-1)*12 + 12)`. -/
def paginatedInventory (s : AppState) : List MaterialSummary :=
  jsSlice (sortedInventory s) ((s.currentPage - 1) * (itemsPerPage : Int))
    ((s.currentPage - 1) * (itemsPerPage : Int) + (itemsPerPage : Int))

/-- The `totalPages` computed signal: `Math.ceil(filteredCount / 12)`. -/
def totalPages (s : AppState) : Int :=
  ⌈((baseFilteredInventory s).length : ℚ) / (itemsPerPage : ℚ)⌉

/-- `goToPage(page)`: accepted only for `0 < page ≤ totalPages`. -/
def goToPage (page : Int) (s : AppState) : AppState :=
  if 0 < page ∧ page ≤ totalPages s then { s with currentPage := page } else s

/-- `nextPage()`. -/
def nextPage (s : AppState) : AppState :=
  goToPage (s.currentPage + 1) s

/-- `prevPage()`. -/
def prevPage (s : AppState) : AppState :=
  goToPage (s.currentPage - 1) s

/-! ### CSV export -/

/-- Double every double quote (model of `str.replace(/"/g, '""')`). -/
def dupQuotes : List Char → List Char
  | [] => []
  | c :: t => if c = '"' then '"' :: '"' :: dupQuotes t else c :: dupQuotes t

/-- The quoted-cell builder shared by both exports: wrap in double quotes,
doubling internal quotes. -/
def csvQuote (s : String) : String :=
  "\"" ++ String.mk (dupQuotes s.toList) ++ "\""

/-- Digits of the fractional part `rem / den` produced by long division
(terminating decimals of the modelled fragment; fuel-bounded). -/
def fracDigitChars : Nat → Nat → Nat → List Char
  | _, _, 0 => []
  | rem, den, fuel + 1 =>
    if rem = 0 then []
    else Char.ofNat (48 + rem * 10 / den) :: fracDigitChars (rem * 10 % den) den fuel

/-- Decimal rendering of a rational (model of JavaScript number-to-string
coercion on the terminating-decimal fragment). -/
def ratToString (q : ℚ) : String :=
  let sign := if q < 0 then "-" else ""
  let n := q.num.natAbs
  let d := q.den
  let frac := fracDigitChars (n % d) d 100
  sign ++ Nat.repr (n / d) ++ (if frac.isEmpty then "" else "." ++ String.mk frac)

/-- The header row of the inventory export. -/
def invHeaderLine : String :=
  String.intercalate "," ["Material", "MaterialDescription", "TotalIn", "TotalOut", "Balance", "Unit"]

/-- The CSV text produced by `exportInventoryToCsv` (the file download itself
is presentation glue); `none` when the export is skipped for an empty view. -/
def exportInventoryCsvText (items : List MaterialSummary) : Option String :=
  if items.isEmpty then none
  else
    some (String.intercalate "\n"
      (invHeaderLine :: items.map (fun item =>
        String.intercalate ","
          [item.material,
           csvQuote item.materialDescription,
           ratToString item.totalIn,
           ratToString item.totalOut,
           ratToString item.balance,
           item.unit])))

/-- Direction of a detailed transaction view (`'in' | 'out'`). -/
inductive TxKind
  | inbound
  | outbound
deriving DecidableEq

/-- The header row of the transaction export. -/
def txHeaderLine : String :=
  String.intercalate ","
    ["PostingDate", "Quantity", "User", "CostCenter", "Document", "Reservation", "HeaderText", "Text"]

/-- The CSV text produced by `exportToCsv` over the detailed view's
transactions: quantity is negated for the outbound direction, the posting
date joins raw (JavaScript `join` renders `undefined` as the empty string),
and the six text fields go through the quoting helper `safe`. -/
def exportTransactionsCsvText (kind : TxKind) (txs : List Transaction) : Option String :=
  if txs.isEmpty then none
  else
    some (String.intercalate "\n"
      (txHeaderLine :: txs.map (fun tx =>
        String.intercalate ","
          [(tx.postingDate).getD "",
           ratToString (if kind = TxKind.inbound then tx.quantity else -tx.quantity),
           csvQuote tx.user,
           csvQuote tx.costCenter,
           csvQuote tx.document,
           csvQuote tx.reservation,
           csvQuote tx.headerText,
           csvQuote tx.text])))

/-! ### The admission predicate and the expected aggregation result -/

/-- The spec's row-admission predicate: movement type (trimmed) is exactly
`"101"` or `"201"`, the material cell is non-empty, and the quantity cell
parses to a (finite) number. -/
def specValidRow (idx : ColumnIndices) (r : Row) : Bool :=
  match trimmedMovement idx r with
  | none => false
  | some mt => (mt == "101" || mt == "201") && (rowMaterial idx r != "") && (rowQty idx r).isSome

/-- A valid row of movement type `mt` belonging to material `mat`. -/
def matchesRow (idx : ColumnIndices) (mt mat : String) (r : Row) : Bool :=
  specValidRow idx r && (trimmedMovement idx r == some mt) && (rowMaterial idx r == mat)

/-- The transactions contributed to material `mat` by the valid rows of
movement type `mt`, in input order. -/
def txsFor (cc : String → Option String) (idx : ColumnIndices) (mt mat : String)
    (rows : List Row) : List Transaction :=
  rows.filterMap (fun r =>
    if matchesRow idx mt mat r then some (mkTransaction cc idx r ((rowQty idx r).getD 0))
    else none)

/-- Sum of the raw (signed) quantities of the valid 101-rows of `mat`. -/
def qtyInSum (idx : ColumnIndices) (mat : String) (rows : List Row) : ℚ :=
  (rows.filterMap (fun r => if matchesRow idx "101" mat r then rowQty idx r else none)).sum

/-- Sum of the absolute quantities of the valid 201-rows of `mat`. -/
def qtyOutSum (idx : ColumnIndices) (mat : String) (rows : List Row) : ℚ :=
  (rows.filterMap (fun r =>
    if matchesRow idx "201" mat r then (rowQty idx r).map (fun q => |q|) else none)).sum

/-- The first valid row of material `mat` in the row stream. -/
def firstValidFor (idx : ColumnIndices) (mat : String) (rows : List Row) : Option Row :=
  rows.find? (fun r => specValidRow idx r && (rowMaterial idx r == mat))

/-- The accumulator entry the fold is expected to produce for `mat`:
description and unit from the first valid row, totals summed over the valid
rows, transaction lists in input order, balance still 0 (it is set by
`finalize`). -/
def expectedData (cc : String → Option String) (idx : ColumnIndices) (mat : String)
    (rows : List Row) : Option SummaryData :=
  (firstValidFor idx mat rows).map (fun r0 =>
    { materialDescription := jsOr (getCell r0 idx.descriptionIdx) "No Description"
      totalIn := qtyInSum idx mat rows
      totalOut := qtyOutSum idx mat rows
      balance := 0
      unit := jsOr (getCell r0 idx.unitIdx) "N/A"
      inTransactions := txsFor cc idx "101" mat rows
      outTransactions := txsFor cc idx "201" mat rows })

/-- Reading of the claim "description is the first non-empty Material
Description cell seen among that material's valid rows, or a placeholder":
the head of the non-empty description cells of the valid rows of `mat`. -/
def specFirstNonEmptyDescription (idx : ColumnIndices) (mat : String)
    (rows : List Row) : String :=
  ((rows.filterMap (fun r =>
    if specValidRow idx r && (rowMaterial idx r == mat) then
      match getCell r idx.descriptionIdx with
      | some dsc => if dsc = "" then none else some dsc
      | none => none
    else none)).head?).getD "No Description"

/-- Reading of the claim "every string field is double-quoted" for the
inventory export: like `exportInventoryCsvText`, but with the material and
unit fields also quoted. -/
def specExportInventoryCsvText (items : List MaterialSummary) : Option String :=
  if items.isEmpty then none
  else
    some (String.intercalate "\n"
      (invHeaderLine :: items.map (fun item =>
        String.intercalate ","
          [csvQuote item.material,
           csvQuote item.materialDescription,
           ratToString item.totalIn,
           ratToString item.totalOut,
           ratToString item.balance,
           csvQuote item.unit])))

/-- Reading of the claim "every string field is double-quoted" for the
transaction export: like `exportTransactionsCsvText`, but with the posting
date also quoted. -/
def specExportTransactionsCsvText (kind : TxKind) (txs : List Transaction) : Option String :=
  if txs.isEmpty then none
  else
    some (String.intercalate "\n"
      (txHeaderLine :: txs.map (fun tx =>
        String.intercalate ","
          [csvQuote ((tx.postingDate).getD ""),
           ratToString (if kind = TxKind.inbound then tx.quantity else -tx.quantity),
           csvQuote tx.user,
           csvQuote tx.costCenter,
           csvQuote tx.document,
           csvQuote tx.reservation,
           csvQuote tx.headerText,
           csvQuote tx.text])))

/-- Undo quote doubling, one character at a time; the flag records a pending
unmatched double quote. -/
def undupAux : Bool → List Char → Option (List Char)
  | false, [] => some []
  | true, [] => none
  | false, c :: t =>
    if c = '"' then undupAux true t else (undupAux false t).map (fun l => c :: l)
  | true, c :: t =>
    if c = '"' then (undupAux false t).map (fun l => '"' :: l) else none

/-- Undo quote doubling; fails on an unpaired double quote. -/
def undupQuotes (l : List Char) : Option (List Char) :=
  undupAux false l

/-- Parse one quoted CSV cell back to its field value. -/
def csvUnquote (s : String) : Option String :=
  match s.toList with
  | '"' :: rest =>
    if rest.getLast? = some '"' then (undupQuotes rest.dropLast).map String.mk else none
  | _ => none

/-! ### Lemmas about the association-list map -/

theorem alistLookup_append (m₁ m₂ : SMap) (k : String) :
    alistLookup (m₁ ++ m₂) k = (alistLookup m₁ k).or (alistLookup m₂ k) := by
  induction m₁ with
  | nil => simp [alistLookup]
  | cons p t ih =>
    obtain ⟨k₀, v₀⟩ := p
    by_cases h : k₀ = k
    · simp [alistLookup, h]
    · simp [alistLookup, h, ih]

theorem alistLookup_update (m : SMap) (k : String) (f : SummaryData → SummaryData)
    (k' : String) :
    alistLookup (alistUpdate m k f) k' =
      if k' = k then (alistLookup m k).map f else alistLookup m k' := by
  induction m with
  | nil => simp [alistLookup, alistUpdate]
  | cons p t ih =>
    obtain ⟨k₀, v₀⟩ := p
    by_cases h0 : k₀ = k
    · subst h0
      by_cases h1 : k₀ = k'
      · subst h1
        simp [alistLookup, alistUpdate]
      · simp [alistLookup, alistUpdate, h1, Ne.symm h1]
    · by_cases h1 : k₀ = k'
      · subst h1
        have hne : ¬ k₀ = k := h0
        simp [alistLookup, alistUpdate, hne, Ne.symm hne]
      · simp [alistLookup, alistUpdate, h0, h1, ih]

theorem alistUpdate_keys (m : SMap) (k : String) (f : SummaryData → SummaryData) :
    (alistUpdate m k f).map Prod.fst = m.map Prod.fst := by
  induction m with
  | nil => rfl
  | cons p t ih =>
    obtain ⟨k₀, v₀⟩ := p
    by_cases h : k₀ = k
    · simp [alistUpdate, h]
    · simp [alistUpdate, h, ih]

theorem alistLookup_eq_none_iff (m : SMap) (k : String) :
    alistLookup m k = none ↔ k ∉ m.map Prod.fst := by
  induction m with
  | nil => simp [alistLookup]
  | cons p t ih =>
    obtain ⟨k₀, v₀⟩ := p
    by_cases h : k₀ = k
    · simp [alistLookup, h]
    · simp [alistLookup, h, ih, Ne.symm h]

theorem alistLookup_of_mem (m : SMap) (k : String) (v : SummaryData)
    (hnd : (m.map Prod.fst).Nodup) (hm : (k, v) ∈ m) :
    alistLookup m k = some v := by
  induction m with
  | nil => simp at hm
  | cons p t ih =>
    obtain ⟨k₀, v₀⟩ := p
    simp only [List.map_cons, List.nodup_cons] at hnd
    rcases List.mem_cons.mp hm with h | h
    · rw [Prod.ext_iff] at h
      obtain ⟨h1, h2⟩ := h
      simp only at h1 h2
      subst h1
      subst h2
      simp [alistLookup]
    · have hk : k₀ ≠ k := by
        intro he
        exact hnd.1 (he ▸ (List.mem_map.mpr ⟨(k, v), h, rfl⟩))
      simp [alistLookup, hk, ih hnd.2 h]

/-! ### Lemmas about the stable sort -/

theorem sortInsert_perm (cmp : α → α → Int) (x : α) (l : List α) :
    (sortInsert cmp x l).Perm (x :: l) := by
  induction l with
  | nil => simp [sortInsert]
  | cons y ys ih =>
    by_cases h : cmp y x < 0
    · simp only [sortInsert, if_pos h]
      exact (ih.cons y).trans (List.Perm.swap x y ys)
    · simp [sortInsert, if_neg h]

theorem stableSort_perm (cmp : α → α → Int) (l : List α) :
    (stableSort cmp l).Perm l := by
  induction l with
  | nil => simp [stableSort]
  | cons x xs ih =>
    exact (sortInsert_perm cmp x (stableSort cmp xs)).trans (ih.cons x)

theorem cmpOf_neg (kf : α → Option Int) (a b : α) (h : cmpOf kf a b < 0) :
    ∃ x y, kf a = some x ∧ kf b = some y ∧ y < x := by
  cases ha : kf a with
  | none => simp [cmpOf, ha] at h
  | some x =>
    cases hb : kf b with
    | none => simp [cmpOf, ha, hb] at h
    | some y =>
      refine ⟨x, y, rfl, rfl, ?_⟩
      simp only [cmpOf, ha, hb] at h
      omega

theorem cmpOf_not_neg (kf : α → Option Int) (a b : α) (x y : Int)
    (ha : kf a = some x) (hb : kf b = some y) (h : ¬ cmpOf kf a b < 0) :
    x ≤ y := by
  simp only [cmpOf, ha, hb] at h
  omega

theorem sortInsert_sorted (kf : α → Option Int) (x : α) (l : List α)
    (hx : (kf x).isSome) (hl : ∀ a ∈ l, (kf a).isSome)
    (h : l.Pairwise (fun a b => (kf b).getD 0 ≤ (kf a).getD 0)) :
    (sortInsert (cmpOf kf) x l).Pairwise (fun a b => (kf b).getD 0 ≤ (kf a).getD 0) := by
  induction l with
  | nil => simp [sortInsert]
  | cons y ys ih =>
    rw [List.pairwise_cons] at h
    by_cases hc : cmpOf kf y x < 0
    · simp only [sortInsert, if_pos hc]
      rw [List.pairwise_cons]
      constructor
      · intro a ha
        rcases List.mem_cons.mp ((sortInsert_perm (cmpOf kf) x ys).mem_iff.mp ha) with h1 | h1
        · rw [h1]
          obtain ⟨ky, kx, hky, hkx, hlt⟩ := cmpOf_neg kf y x hc
          rw [hky, hkx]
          simpa using le_of_lt hlt
        · exact h.1 a h1
      · exact ih (fun a ha => hl a (List.mem_cons_of_mem y ha)) h.2
    · simp only [sortInsert, if_neg hc]
      obtain ⟨ky, hky⟩ := Option.isSome_iff_exists.mp (hl y (List.mem_cons_self y ys))
      obtain ⟨kx, hkx⟩ := Option.isSome_iff_exists.mp hx
      have hyx : ky ≤ kx := cmpOf_not_neg kf y x ky kx hky hkx hc
      rw [List.pairwise_cons]
      constructor
      · intro a ha
        rcases List.mem_cons.mp ha with h1 | h1
        · rw [h1, hky, hkx]
          simpa using hyx
        · have h2 := h.1 a h1
          rw [hky] at h2
          rw [hkx]
          simp only [Option.getD_some] at h2 ⊢
          omega
      · exact List.pairwise_cons.mpr ⟨h.1, h.2⟩

theorem stableSort_sorted (kf : α → Option Int) (l : List α)
    (hl : ∀ a ∈ l, (kf a).isSome) :
    (stableSort (cmpOf kf) l).Pairwise (fun a b => (kf b).getD 0 ≤ (kf a).getD 0) := by
  induction l with
  | nil => simp [stableSort]
  | cons x xs ih =>
    have hx : (kf x).isSome = true := hl x (List.mem_cons_self x xs)
    have hxs : ∀ a ∈ xs, (kf a).isSome = true :=
      fun a ha => hl a (List.mem_cons_of_mem x ha)
    have hmem : ∀ a ∈ stableSort (cmpOf kf) xs, (kf a).isSome = true :=
      fun a ha => hxs a ((stableSort_perm (cmpOf kf) xs).mem_iff.mp ha)
    exact sortInsert_sorted kf x (stableSort (cmpOf kf) xs) hx hmem (ih hxs)

theorem filter_sortInsert (kf : α → Option Int) (x : α) (l : List α) (v : Int) :
    (sortInsert (cmpOf kf) x l).filter (fun a => kf a == some v)
      = if kf x == some v then x :: l.filter (fun a => kf a == some v)
        else l.filter (fun a => kf a == some v) := by
  induction l with
  | nil => cases hx : kf x == some v <;> simp [sortInsert, List.filter, hx]
  | cons y ys ih =>
    by_cases hc : cmpOf kf y x < 0
    · simp only [sortInsert, if_pos hc]
      rw [List.filter_cons, ih]
      by_cases hx : kf x == some v
      · have hy : (kf y == some v) = false := by
          obtain ⟨ky, kx, hky, hkx, hlt⟩ := cmpOf_neg kf y x hc
          have hv : kx = v := by
            rw [hkx] at hx
            simpa using hx
          rw [hky]
          simp only [beq_eq_false_iff_ne, ne_eq, Option.some.injEq]
          omega
        simp [hy, hx, List.filter_cons]
      · simp [hx, List.filter_cons]
    · simp only [sortInsert, if_neg hc]
      rw [List.filter_cons]

theorem filter_stableSort (kf : α → Option Int) (l : List α) (v : Int) :
    (stableSort (cmpOf kf) l).filter (fun a => kf a == some v)
      = l.filter (fun a => kf a == some v) := by
  induction l with
  | nil => simp [stableSort]
  | cons x xs ih =>
    show (sortInsert (cmpOf kf) x (stableSort (cmpOf kf) xs)).filter _ = _
    rw [filter_sortInsert, List.filter_cons]
    by_cases hx : kf x == some v
    · rw [if_pos hx, if_pos hx, ih]
    · rw [if_neg hx, if_neg hx, ih]

/-! ### Lemma about slicing -/

theorem length_jsSlice (l : List α) (a b : Int) (hab : a ≤ b) :
    (jsSlice l a b).length ≤ (b - a).toNat := by
  unfold jsSlice jsSliceIndex
  simp only [List.length_take, List.length_drop, Nat.min_def]
  split_ifs <;> omega

/-! ### Behaviour of one loop iteration -/

theorem processRow_not_valid (cc : String → Option String) (idx : ColumnIndices)
    (m : SMap) (r : Row) (h : specValidRow idx r = false) :
    processRow cc idx m r = m := by
  cases hmt : trimmedMovement idx r with
  | none => simp [processRow, hmt]
  | some mt =>
    by_cases hallow : mt = "101" ∨ mt = "201"
    · cases hq : rowQty idx r with
      | none => simp [processRow, hmt, hallow, hq]
      | some q =>
        by_cases hmat : rowMaterial idx r = ""
        · simp [processRow, hmt, hallow, hq, hmat]
        · exfalso
          rcases hallow with h1 | h1 <;> subst h1 <;>
            simp [specValidRow, hmt, hq, hmat] at h
    · simp [processRow, hmt, hallow]

theorem processRow_valid_101 (cc : String → Option String) (idx : ColumnIndices)
    (m : SMap) (r : Row) (q : ℚ)
    (hmt : trimmedMovement idx r = some "101")
    (hq : rowQty idx r = some q)
    (hmat : ¬ rowMaterial idx r = "") :
    processRow cc idx m r =
      alistUpdate
        (if (alistLookup m (rowMaterial idx r)).isSome then m
         else m ++ [(rowMaterial idx r, initSummary idx r)])
        (rowMaterial idx r) (updIn q (mkTransaction cc idx r q)) := by
  simp [processRow, hmt, hq, hmat]

theorem processRow_valid_201 (cc : String → Option String) (idx : ColumnIndices)
    (m : SMap) (r : Row) (q : ℚ)
    (hmt : trimmedMovement idx r = some "201")
    (hq : rowQty idx r = some q)
    (hmat : ¬ rowMaterial idx r = "") :
    processRow cc idx m r =
      alistUpdate
        (if (alistLookup m (rowMaterial idx r)).isSome then m
         else m ++ [(rowMaterial idx r, initSummary idx r)])
        (rowMaterial idx r) (updOut q (mkTransaction cc idx r q)) := by
  simp [processRow, hmt, hq, hmat]

/-! ### Decomposition of the admission predicate -/

theorem specValidRow_parts (idx : ColumnIndices) (r : Row)
    (h : specValidRow idx r = true) :
    ∃ mt, trimmedMovement idx r = some mt ∧ (mt = "101" ∨ mt = "201")
      ∧ ¬ rowMaterial idx r = "" ∧ ∃ q, rowQty idx r = some q := by
  cases hmt : trimmedMovement idx r with
  | none => simp [specValidRow, hmt] at h
  | some mt =>
    simp only [specValidRow, hmt] at h
    simp only [Bool.and_eq_true, Bool.or_eq_true, beq_iff_eq, bne_iff_ne, ne_eq,
      Option.isSome_iff_exists] at h
    exact ⟨mt, rfl, h.1.1, h.1.2, h.2⟩

theorem matchesRow_parts (idx : ColumnIndices) (mt mat : String) (r : Row)
    (h : matchesRow idx mt mat r = true) :
    specValidRow idx r = true ∧ trimmedMovement idx r = some mt
      ∧ rowMaterial idx r = mat := by
  simp only [matchesRow, Bool.and_eq_true, beq_iff_eq] at h
  exact ⟨h.1.1, h.1.2, h.2⟩

theorem matchesRow_false_of (idx : ColumnIndices) (mt mat : String) (r : Row)
    (h : (specValidRow idx r && (rowMaterial idx r == mat)) = false) :
    matchesRow idx mt mat r = false := by
  unfold matchesRow
  cases ha : specValidRow idx r <;> cases hc : (rowMaterial idx r == mat) <;>
    simp_all

/-! ### Snoc equations for the expected-result functions -/

theorem firstValidFor_snoc (idx : ColumnIndices) (mat : String) (rows : List Row)
    (r : Row) :
    firstValidFor idx mat (rows ++ [r]) =
      (firstValidFor idx mat rows).or
        (if specValidRow idx r && (rowMaterial idx r == mat) then some r else none) := by
  unfold firstValidFor
  rw [List.find?_append]
  congr 1
  cases hpr : (specValidRow idx r && (rowMaterial idx r == mat)) <;>
    simp [List.find?, hpr]

theorem txsFor_snoc (cc : String → Option String) (idx : ColumnIndices)
    (mt mat : String) (rows : List Row) (r : Row) :
    txsFor cc idx mt mat (rows ++ [r]) = txsFor cc idx mt mat rows ++
      (if matchesRow idx mt mat r
       then [mkTransaction cc idx r ((rowQty idx r).getD 0)] else []) := by
  unfold txsFor
  rw [List.filterMap_append]
  congr 1
  cases h : matchesRow idx mt mat r <;> simp [List.filterMap, h]

theorem qtyInSum_snoc (idx : ColumnIndices) (mat : String) (rows : List Row) (r : Row) :
    qtyInSum idx mat (rows ++ [r]) = qtyInSum idx mat rows +
      (if matchesRow idx "101" mat r then (rowQty idx r).getD 0 else 0) := by
  unfold qtyInSum
  rw [List.filterMap_append, List.sum_append]
  congr 1
  cases h : matchesRow idx "101" mat r
  · simp [List.filterMap, h]
  · obtain ⟨hval, _, _⟩ := matchesRow_parts idx "101" mat r h
    obtain ⟨mt, _, _, _, q, hq⟩ := specValidRow_parts idx r hval
    simp [List.filterMap, h, hq]

theorem qtyOutSum_snoc (idx : ColumnIndices) (mat : String) (rows : List Row) (r : Row) :
    qtyOutSum idx mat (rows ++ [r]) = qtyOutSum idx mat rows +
      (if matchesRow idx "201" mat r then |(rowQty idx r).getD 0| else 0) := by
  unfold qtyOutSum
  rw [List.filterMap_append, List.sum_append]
  congr 1
  cases h : matchesRow idx "201" mat r
  · simp [List.filterMap, h]
  · obtain ⟨hval, _, _⟩ := matchesRow_parts idx "201" mat r h
    obtain ⟨mt, _, _, _, q, hq⟩ := specValidRow_parts idx r hval
    simp [List.filterMap, h, hq]

/-! ### No valid row yet: the expected-result functions are trivial -/

theorem txsFor_eq_nil (cc : String → Option String) (idx : ColumnIndices)
    (mt mat : String) (rows : List Row)
    (h : firstValidFor idx mat rows = none) :
    txsFor cc idx mt mat rows = [] := by
  rw [txsFor, List.filterMap_eq_nil_iff]
  intro r hr
  have hp := List.find?_eq_none.mp h r hr
  rw [matchesRow_false_of idx mt mat r (by simpa using hp)]
  simp

theorem qtyInSum_eq_zero (idx : ColumnIndices) (mat : String) (rows : List Row)
    (h : firstValidFor idx mat rows = none) :
    qtyInSum idx mat rows = 0 := by
  rw [qtyInSum, List.filterMap_eq_nil_iff.mpr, List.sum_nil]
  intro r hr
  have hp := List.find?_eq_none.mp h r hr
  rw [matchesRow_false_of idx "101" mat r (by simpa using hp)]
  simp

theorem qtyOutSum_eq_zero (idx : ColumnIndices) (mat : String) (rows : List Row)
    (h : firstValidFor idx mat rows = none) :
    qtyOutSum idx mat rows = 0 := by
  rw [qtyOutSum, List.filterMap_eq_nil_iff.mpr, List.sum_nil]
  intro r hr
  have hp := List.find?_eq_none.mp h r hr
  rw [matchesRow_false_of idx "201" mat r (by simpa using hp)]
  simp

/-! ### The aggregation invariant -/

theorem aggregate_invariant (cc : String → Option String) (idx : ColumnIndices)
    (rows : List Row) :
    (∀ mat, alistLookup (rows.foldl (processRow cc idx) []) mat
        = expectedData cc idx mat rows)
    ∧ ((rows.foldl (processRow cc idx) []).map Prod.fst).Nodup := by
  induction rows using List.reverseRecOn with
  | nil =>
    refine ⟨fun mat => ?_, by simp⟩
    simp [alistLookup, expectedData, firstValidFor]
  | append_singleton rows r ih =>
    obtain ⟨ihL, ihN⟩ := ih
    rw [List.foldl_append]
    simp only [List.foldl_cons, List.foldl_nil]
    set M := rows.foldl (processRow cc idx) [] with hM
    by_cases hv : specValidRow idx r = true
    · obtain ⟨mt, hmt, hallow, hmat, q, hq⟩ := specValidRow_parts idx r hv
      rcases hallow with h1 | h1
      · -- movement type "101"
        subst h1
        rw [processRow_valid_101 cc idx M r q hmt hq hmat]
        have hm101self : matchesRow idx "101" (rowMaterial idx r) r = true := by
          simp [matchesRow, hv, hmt]
        have hm201self : matchesRow idx "201" (rowMaterial idx r) r = false := by
          simp [matchesRow, hmt]
        by_cases hsome : (alistLookup M (rowMaterial idx r)).isSome
        · rw [if_pos hsome]
          refine ⟨fun mat => ?_, ?_⟩
          · rw [alistLookup_update]
            by_cases hmm : mat = rowMaterial idx r
            · subst hmm
              rw [if_pos rfl]
              obtain ⟨v, hvv⟩ := Option.isSome_iff_exists.mp hsome
              rw [hvv]
              have hexp := ihL (rowMaterial idx r)
              rw [hvv] at hexp
              unfold expectedData at hexp
              cases hfv : firstValidFor idx (rowMaterial idx r) rows with
              | none => rw [hfv] at hexp; simp at hexp
              | some r0 =>
                rw [hfv] at hexp
                simp only [Option.map_some'] at hexp
                have hveq := Option.some.inj hexp
                simp only [expectedData, firstValidFor_snoc, hfv, Option.or,
                  Option.map_some']
                rw [hveq]
                simp [updIn, qtyInSum_snoc, qtyOutSum_snoc, txsFor_snoc,
                  hm101self, hm201self, hq]
            · rw [if_neg hmm]
              rw [ihL mat]
              have hpred : (specValidRow idx r && (rowMaterial idx r == mat)) = false := by
                simp only [hv, Bool.true_and, beq_eq_false_iff_ne, ne_eq]
                exact fun h => hmm h.symm
              have hmA := matchesRow_false_of idx "101" mat r hpred
              have hmB := matchesRow_false_of idx "201" mat r hpred
              simp [expectedData, firstValidFor_snoc, hpred, qtyInSum_snoc,
                qtyOutSum_snoc, txsFor_snoc, hmA, hmB]
          · rw [alistUpdate_keys]
            exact ihN
        · rw [if_neg hsome]
          have hnone : alistLookup M (rowMaterial idx r) = none := by
            cases hc : alistLookup M (rowMaterial idx r)
            · rfl
            · rw [hc] at hsome; simp at hsome
          have hfv : firstValidFor idx (rowMaterial idx r) rows = none := by
            have hexp := ihL (rowMaterial idx r)
            rw [hnone] at hexp
            unfold expectedData at hexp
            cases hfv : firstValidFor idx (rowMaterial idx r) rows
            · rfl
            · rw [hfv] at hexp; simp at hexp
          have h0in := qtyInSum_eq_zero idx (rowMaterial idx r) rows hfv
          have h0out := qtyOutSum_eq_zero idx (rowMaterial idx r) rows hfv
          have hnilIn := txsFor_eq_nil cc idx "101" (rowMaterial idx r) rows hfv
          have hnilOut := txsFor_eq_nil cc idx "201" (rowMaterial idx r) rows hfv
          refine ⟨fun mat => ?_, ?_⟩
          · rw [alistLookup_update]
            by_cases hmm : mat = rowMaterial idx r
            · subst hmm
              rw [if_pos rfl]
              rw [alistLookup_append, hnone, Option.none_or]
              have hpredT : (specValidRow idx r
                  && (rowMaterial idx r == rowMaterial idx r)) = true := by
                simp [hv]
              simp only [alistLookup, if_pos rfl, Option.map_some']
              simp only [expectedData, firstValidFor_snoc, hfv, Option.none_or,
                hpredT, if_true, Option.map_some']
              simp [updIn, initSummary, qtyInSum_snoc, qtyOutSum_snoc, txsFor_snoc,
                hm101self, hm201self, hq, h0in, h0out, hnilIn, hnilOut]
            · rw [if_neg hmm]
              rw [alistLookup_append]
              have hsing : alistLookup [(rowMaterial idx r, initSummary idx r)] mat
                  = none := by
                simp only [alistLookup]
                rw [if_neg (fun h => hmm h.symm)]
              rw [hsing, Option.or_none, ihL mat]
              have hpred : (specValidRow idx r && (rowMaterial idx r == mat)) = false := by
                simp only [hv, Bool.true_and, beq_eq_false_iff_ne, ne_eq]
                exact fun h => hmm h.symm
              have hmA := matchesRow_false_of idx "101" mat r hpred
              have hmB := matchesRow_false_of idx "201" mat r hpred
              simp [expectedData, firstValidFor_snoc, hpred, qtyInSum_snoc,
                qtyOutSum_snoc, txsFor_snoc, hmA, hmB]
          · rw [alistUpdate_keys]
            have hnotin : rowMaterial idx r ∉ M.map Prod.fst :=
              (alistLookup_eq_none_iff M (rowMaterial idx r)).mp hnone
            simp only [List.map_append, List.map_cons, List.map_nil]
            rw [List.nodup_append]
            refine ⟨ihN, by simp, ?_⟩
            intro a ha hb
            simp only [List.mem_cons, List.not_mem_nil, or_false] at hb
            subst hb
            exact hnotin ha
      · -- movement type "201"
        subst h1
        rw [processRow_valid_201 cc idx M r q hmt hq hmat]
        have hm201self : matchesRow idx "201" (rowMaterial idx r) r = true := by
          simp [matchesRow, hv, hmt]
        have hm101self : matchesRow idx "101" (rowMaterial idx r) r = false := by
          simp [matchesRow, hmt]
        by_cases hsome : (alistLookup M (rowMaterial idx r)).isSome
        · rw [if_pos hsome]
          refine ⟨fun mat => ?_, ?_⟩
          · rw [alistLookup_update]
            by_cases hmm : mat = rowMaterial idx r
            · subst hmm
              rw [if_pos rfl]
              obtain ⟨v, hvv⟩ := Option.isSome_iff_exists.mp hsome
              rw [hvv]
              have hexp := ihL (rowMaterial idx r)
              rw [hvv] at hexp
              unfold expectedData at hexp
              cases hfv : firstValidFor idx (rowMaterial idx r) rows with
              | none => rw [hfv] at hexp; simp at hexp
              | some r0 =>
                rw [hfv] at hexp
                simp only [Option.map_some'] at hexp
                have hveq := Option.some.inj hexp
                simp only [expectedData, firstValidFor_snoc, hfv, Option.or,
                  Option.map_some']
                rw [hveq]
                simp [updOut, qtyInSum_snoc, qtyOutSum_snoc, txsFor_snoc,
                  hm101self, hm201self, hq]
            · rw [if_neg hmm]
              rw [ihL mat]
              have hpred : (specValidRow idx r && (rowMaterial idx r == mat)) = false := by
                simp only [hv, Bool.true_and, beq_eq_false_iff_ne, ne_eq]
                exact fun h => hmm h.symm
              have hmA := matchesRow_false_of idx "101" mat r hpred
              have hmB := matchesRow_false_of idx "201" mat r hpred
              simp [expectedData, firstValidFor_snoc, hpred, qtyInSum_snoc,
                qtyOutSum_snoc, txsFor_snoc, hmA, hmB]
          · rw [alistUpdate_keys]
            exact ihN
        · rw [if_neg hsome]
          have hnone : alistLookup M (rowMaterial idx r) = none := by
            cases hc : alistLookup M (rowMaterial idx r)
            · rfl
            · rw [hc] at hsome; simp at hsome
          have hfv : firstValidFor idx (rowMaterial idx r) rows = none := by
            have hexp := ihL (rowMaterial idx r)
            rw [hnone] at hexp
            unfold expectedData at hexp
            cases hfv : firstValidFor idx (rowMaterial idx r) rows
            · rfl
            · rw [hfv] at hexp; simp at hexp
          have h0in := qtyInSum_eq_zero idx (rowMaterial idx r) rows hfv
          have h0out := qtyOutSum_eq_zero idx (rowMaterial idx r) rows hfv
          have hnilIn := txsFor_eq_nil cc idx "101" (rowMaterial idx r) rows hfv
          have hnilOut := txsFor_eq_nil cc idx "201" (rowMaterial idx r) rows hfv
          refine ⟨fun mat => ?_, ?_⟩
          · rw [alistLookup_update]
            by_cases hmm : mat = rowMaterial idx r
            · subst hmm
              rw [if_pos rfl]
              rw [alistLookup_append, hnone, Option.none_or]
              have hpredT : (specValidRow idx r
                  && (rowMaterial idx r == rowMaterial idx r)) = true := by
                simp [hv]
              simp only [alistLookup, if_pos rfl, Option.map_some']
              simp only [expectedData, firstValidFor_snoc, hfv, Option.none_or,
                hpredT, if_true, Option.map_some']
              simp [updOut, initSummary, qtyInSum_snoc, qtyOutSum_snoc, txsFor_snoc,
                hm101self, hm201self, hq, h0in, h0out, hnilIn, hnilOut]
            · rw [if_neg hmm]
              rw [alistLookup_append]
              have hsing : alistLookup [(rowMaterial idx r, initSummary idx r)] mat
                  = none := by
                simp only [alistLookup]
                rw [if_neg (fun h => hmm h.symm)]
              rw [hsing, Option.or_none, ihL mat]
              have hpred : (specValidRow idx r && (rowMaterial idx r == mat)) = false := by
                simp only [hv, Bool.true_and, beq_eq_false_iff_ne, ne_eq]
                exact fun h => hmm h.symm
              have hmA := matchesRow_false_of idx "101" mat r hpred
              have hmB := matchesRow_false_of idx "201" mat r hpred
              simp [expectedData, firstValidFor_snoc, hpred, qtyInSum_snoc,
                qtyOutSum_snoc, txsFor_snoc, hmA, hmB]
          · rw [alistUpdate_keys]
            have hnotin : rowMaterial idx r ∉ M.map Prod.fst :=
              (alistLookup_eq_none_iff M (rowMaterial idx r)).mp hnone
            simp only [List.map_append, List.map_cons, List.map_nil]
            rw [List.nodup_append]
            refine ⟨ihN, by simp, ?_⟩
            intro a ha hb
            simp only [List.mem_cons, List.not_mem_nil, or_false] at hb
            subst hb
            exact hnotin ha
    · have hvf : specValidRow idx r = false := by
        cases hvv : specValidRow idx r
        · rfl
        · exact absurd hvv hv
      rw [processRow_not_valid cc idx M r hvf]
      refine ⟨fun mat => ?_, ihN⟩
      rw [ihL mat]
      have hpred : (specValidRow idx r && (rowMaterial idx r == mat)) = false := by
        rw [hvf]
        simp
      have hmA := matchesRow_false_of idx "101" mat r hpred
      have hmB := matchesRow_false_of idx "201" mat r hpred
      simp [expectedData, firstValidFor_snoc, hpred, qtyInSum_snoc,
        qtyOutSum_snoc, txsFor_snoc, hmA, hmB]

/-! ### Characterization of successful aggregation results -/

theorem processData_ok_mem (cc : String → Option String) (resp : InventoryResponse)
    (res : List MaterialSummary) (h : processData cc resp = Except.ok res)
    (s : MaterialSummary) (hs : s ∈ res) :
    ∃ v : SummaryData,
      expectedData cc (mkIndices resp.headers) s.material resp.rows = some v
      ∧ s.materialDescription = v.materialDescription
      ∧ s.totalIn = v.totalIn
      ∧ s.totalOut = v.totalOut
      ∧ s.balance = v.totalIn - v.totalOut
      ∧ s.unit = v.unit
      ∧ s.inTransactions = stableSort txCmp v.inTransactions
      ∧ s.outTransactions = stableSort txCmp v.outTransactions := by
  unfold processData at h
  by_cases hcheck : (requiredColumns.map (jsIndexOf resp.headers)).any (fun i => i = -1)
  · rw [if_pos hcheck] at h
    cases h
  · rw [if_neg hcheck] at h
    have hres := Except.ok.inj h
    rw [← hres] at hs
    unfold finalize at hs
    obtain ⟨p, hp, hps⟩ := List.mem_map.mp hs
    obtain ⟨hlook, hnd⟩ := aggregate_invariant cc (mkIndices resp.headers) resp.rows
    have hpm : (p.1, p.2) ∈ resp.rows.foldl (processRow cc (mkIndices resp.headers)) [] := by
      rw [Prod.mk.eta]
      exact hp
    have hl := alistLookup_of_mem _ p.1 p.2 hnd hpm
    rw [hlook p.1] at hl
    subst hps
    exact ⟨p.2, hl, rfl, rfl, rfl, rfl, rfl, rfl, rfl⟩

theorem qtyOutSum_nonneg (idx : ColumnIndices) (mat : String) (rows : List Row) :
    0 ≤ qtyOutSum idx mat rows := by
  apply List.sum_nonneg
  intro x hx
  obtain ⟨r, hr, hf⟩ := List.mem_filterMap.mp hx
  by_cases h : matchesRow idx "201" mat r
  · rw [if_pos h] at hf
    obtain ⟨q, hq, hxq⟩ := Option.map_eq_some'.mp hf
    rw [← hxq]
    exact abs_nonneg q
  · rw [if_neg h] at hf
    cases hf

/-! ### Concrete fixtures -/

/-- A trivial cost-center table (every code unmapped). -/
def cc0 : String → Option String := fun _ => none

/-- The required headers, in their canonical order. -/
def stdHeaders : List String :=
  ["Material", "Material Description", "Quantity", "Unit of Entry", "Movement Type"]

/-- Fallback record for head extraction from a run. -/
def fallbackSummary : MaterialSummary :=
  { material := "", materialDescription := "", totalIn := 0, totalOut := 0,
    balance := 0, unit := "", inTransactions := [], outTransactions := [] }

/-- A movement-101 row with a negative quantity. -/
def c1Row : Row := ["M1", "Bolt", "-5", "EA", "101"]

/-- One-row table whose only valid row has quantity `-5`. -/
def c1Resp : InventoryResponse := { headers := stdHeaders, rows := [c1Row] }

/-- The summary `processData` actually produces for `c1Resp`. -/
def c1Summary : MaterialSummary :=
  match processData cc0 c1Resp with
  | Except.ok (s :: _) => s
  | _ => fallbackSummary

theorem c1_run : processData cc0 c1Resp = Except.ok [c1Summary] := rfl

/-- C1 (amended): after aggregation, for every material in the resulting
summary collection, `balance = totalIn - totalOut` and `totalOut ≥ 0`; the
unconditional `totalIn ≥ 0` of the original claim fails because `totalIn`
accumulates the raw, possibly negative quantity of 101-rows. -/
theorem c1_balance_invariant (cc : String → Option String) (resp : InventoryResponse)
    (res : List MaterialSummary) (h : processData cc resp = Except.ok res) :
    ∀ s ∈ res, s.balance = s.totalIn - s.totalOut ∧ 0 ≤ s.totalOut := by
  intro s hs
  obtain ⟨v, hv, _, hIn, hOut, hBal, _, _, _⟩ := processData_ok_mem cc resp res h s hs
  refine ⟨by rw [hBal, hIn, hOut], ?_⟩
  rw [hOut]
  unfold expectedData at hv
  obtain ⟨r0, _, hvr⟩ := Option.map_eq_some'.mp hv
  rw [← hvr]
  exact qtyOutSum_nonneg _ _ _

/-- C1, as frozen, is false: a movement-101 row with quantity `-5` yields a
summary with `totalIn = -5 < 0`. -/
theorem c1_counterexample :
    ¬ (∀ (cc : String → Option String) (resp : InventoryResponse)
        (res : List MaterialSummary),
        processData cc resp = Except.ok res →
        ∀ s ∈ res, s.balance = s.totalIn - s.totalOut
          ∧ 0 ≤ s.totalIn ∧ 0 ≤ s.totalOut) := by
  intro hclaim
  have h2 := (hclaim cc0 c1Resp [c1Summary] c1_run c1Summary (List.mem_cons_self _ _)).2.1
  have e1 : c1Summary.totalIn = 0 + (-5 : ℚ) := rfl
  rw [e1] at h2
  norm_num at h2

/-- Witness for C1 (amended) at the concrete run `c1Resp`. -/
theorem c1_witness :
    c1Summary.balance = c1Summary.totalIn - c1Summary.totalOut
      ∧ 0 ≤ c1Summary.totalOut :=
  c1_balance_invariant cc0 c1Resp [c1Summary] c1_run c1Summary (List.mem_cons_self _ _)

/-! ### The aggregation pipeline over the full non-NaN number domain

The code's only guard on a row's quantity is `isNaN(quantity)`
(app.component.ts line 426), so a row whose quantity cell reads `Infinity`
is admitted: `Math.abs(Infinity)` is stored in the transaction and
`totalIn += Infinity` runs.  The pipeline below is the same translation of
`processData` as above, with quantities ranging over the whole non-NaN
domain `JsNum` and the running totals over `Option JsNum` (`none` = NaN,
reachable as `Infinity + (-Infinity)`).  It is the authority for the
admission claim C2; the `ℚ` pipeline above is its restriction to finite
quantities (`jsNumber` is by definition the finite part of
`jsNumberFull`). -/

/-- JavaScript negation on a non-NaN number. -/
def jsNeg : JsNum → JsNum
  | JsNum.fin q => JsNum.fin (-q)
  | JsNum.posInf => JsNum.negInf
  | JsNum.negInf => JsNum.posInf

/-- JavaScript `Math.abs` on a non-NaN number. -/
def jsAbs : JsNum → JsNum
  | JsNum.fin q => JsNum.fin |q|
  | _ => JsNum.posInf

/-- JavaScript addition with NaN (`none`) absorbing and
`Infinity + (-Infinity) = NaN`. -/
def jsAdd : Option JsNum → Option JsNum → Option JsNum
  | none, _ => none
  | _, none => none
  | some (JsNum.fin a), some (JsNum.fin b) => some (JsNum.fin (a + b))
  | some (JsNum.fin _), some JsNum.posInf => some JsNum.posInf
  | some (JsNum.fin _), some JsNum.negInf => some JsNum.negInf
  | some JsNum.posInf, some (JsNum.fin _) => some JsNum.posInf
  | some JsNum.posInf, some JsNum.posInf => some JsNum.posInf
  | some JsNum.posInf, some JsNum.negInf => none
  | some JsNum.negInf, some (JsNum.fin _) => some JsNum.negInf
  | some JsNum.negInf, some JsNum.posInf => none
  | some JsNum.negInf, some JsNum.negInf => some JsNum.negInf

/-- JavaScript subtraction: `a - b = a + (-b)`. -/
def jsSub (a b : Option JsNum) : Option JsNum :=
  jsAdd a (b.map jsNeg)

/-- `Number(cell)` over the full domain (`Number(undefined)` is NaN). -/
def jsNumberCellFull (c : Option String) : Option JsNum :=
  match c with
  | none => none
  | some s => jsNumberFull s

/-- The parsed quantity of a row over the full domain (`none` = NaN): this
is exactly what the `isNaN` guard inspects. -/
def rowQtyFull (idx : ColumnIndices) (r : Row) : Option JsNum :=
  jsNumberCellFull (getCell r idx.quantityIdx)

/-- One movement event with its quantity in the full domain. -/
structure FullTransaction where
  postingDate : Option String
  quantity : JsNum
  user : String
  costCenter : String
  reservation : String
  document : String
  headerText : String
  text : String
deriving DecidableEq

/-- The per-material accumulator of the full pipeline; the totals live in
`Option JsNum` because `+=` can reach NaN. -/
structure FullSummaryData where
  materialDescription : String
  totalIn : Option JsNum
  totalOut : Option JsNum
  balance : Option JsNum
  unit : String
  inTransactions : List FullTransaction
  outTransactions : List FullTransaction
deriving DecidableEq

/-- The normalized summary record of the full pipeline. -/
structure FullMaterialSummary where
  material : String
  materialDescription : String
  totalIn : Option JsNum
  totalOut : Option JsNum
  balance : Option JsNum
  unit : String
  inTransactions : List FullTransaction
  outTransactions : List FullTransaction
deriving DecidableEq

/-- The summary map of the full pipeline. -/
abbrev SMapFull := List (String × FullSummaryData)

/-- `map.get(k)` / `map.has(k)` on the full summary map. -/
def alistLookupFull (m : SMapFull) (k : String) : Option FullSummaryData :=
  match m with
  | [] => none
  | (k₀, v₀) :: t => if k₀ = k then some v₀ else alistLookupFull t k

/-- In-place mutation of the entry at `k` in the full summary map. -/
def alistUpdateFull (m : SMapFull) (k : String) (f : FullSummaryData → FullSummaryData) :
    SMapFull :=
  match m with
  | [] => []
  | (k₀, v₀) :: t => if k₀ = k then (k₀, f v₀) :: t else (k₀, v₀) :: alistUpdateFull t k f

/-- The posting-date timestamp key of a full-domain transaction. -/
def txDateKeyFull (t : FullTransaction) : Option Int :=
  jsDateValue t.postingDate

/-- The transaction comparator of the full pipeline. -/
def txCmpFull : FullTransaction → FullTransaction → Int :=
  cmpOf txDateKeyFull

/-- `totalIn += quantity; inTransactions.push(tx)` over the full domain. -/
def updInFull (q : JsNum) (tx : FullTransaction) (d : FullSummaryData) : FullSummaryData :=
  { d with totalIn := jsAdd d.totalIn (some q),
           inTransactions := d.inTransactions ++ [tx] }

/-- `totalOut += Math.abs(quantity); outTransactions.push(tx)` over the full
domain. -/
def updOutFull (q : JsNum) (tx : FullTransaction) (d : FullSummaryData) : FullSummaryData :=
  { d with totalOut := jsAdd d.totalOut (some (jsAbs q)),
           outTransactions := d.outTransactions ++ [tx] }

/-- The fresh accumulator entry of the full pipeline. -/
def initSummaryFull (idx : ColumnIndices) (row : Row) : FullSummaryData :=
  { materialDescription := jsOr (getCell row idx.descriptionIdx) "No Description"
    totalIn := some (JsNum.fin 0)
    totalOut := some (JsNum.fin 0)
    balance := some (JsNum.fin 0)
    unit := jsOr (getCell row idx.unitIdx) "N/A"
    inTransactions := []
    outTransactions := [] }

/-- The transaction record of the full pipeline: quantity is
`Math.abs(quantity)` over the full domain; the other fields are as in
`mkTransaction`. -/
def mkTransactionFull (cc : String → Option String) (idx : ColumnIndices) (row : Row)
    (quantity : JsNum) : FullTransaction :=
  let costCenterCode := jsOr (getCell row idx.costCenterIdx) ""
  { postingDate := getCell row idx.postingDateIdx
    quantity := jsAbs quantity
    user := jsOr (getCell row idx.userIdx) ""
    costCenter :=
      match cc (jsTrim costCenterCode) with
      | some name => if name = "" then costCenterCode else name
      | none => costCenterCode
    reservation := jsOr (getCell row idx.reservationIdx) ""
    document := jsOr (getCell row idx.docIdx) ""
    headerText := jsOr (getCell row idx.headerTextIdx) ""
    text := jsOr (getCell row idx.textIdx) "" }

/-- The loop body of `processData` over the full domain: identical to
`processRow` except that the quantity guard is exactly the code's `isNaN`
test, so `±Infinity` quantities pass. -/
def processRowFull (cc : String → Option String) (idx : ColumnIndices) (m : SMapFull)
    (row : Row) : SMapFull :=
  match trimmedMovement idx row with
  | none => m
  | some movementType =>
    if movementType = "101" ∨ movementType = "201" then
      let material := rowMaterial idx row
      match rowQtyFull idx row with
      | none => m
      | some quantity =>
        if material = "" then m
        else
          let m1 := if (alistLookupFull m material).isSome then m
                    else m ++ [(material, initSummaryFull idx row)]
          let tx := mkTransactionFull cc idx row quantity
          if movementType = "101" then alistUpdateFull m1 material (updInFull quantity tx)
          else if movementType = "201" then alistUpdateFull m1 material (updOutFull quantity tx)
          else m1
    else m

/-- The final pass of the full pipeline. -/
def finalizeFull (m : SMapFull) : List FullMaterialSummary :=
  m.map (fun p =>
    { material := p.1
      materialDescription := p.2.materialDescription
      totalIn := p.2.totalIn
      totalOut := p.2.totalOut
      balance := jsSub p.2.totalIn p.2.totalOut
      unit := p.2.unit
      inTransactions := stableSort txCmpFull p.2.inTransactions
      outTransactions := stableSort txCmpFull p.2.outTransactions })

/-- `processData` over the full non-NaN number domain. -/
def processDataFull (cc : String → Option String) (resp : InventoryResponse) :
    Except String (List FullMaterialSummary) :=
  if (requiredColumns.map (jsIndexOf resp.headers)).any (fun i => i = -1) then
    Except.error schemaErrorMessage
  else
    Except.ok (finalizeFull (resp.rows.foldl (processRowFull cc (mkIndices resp.headers)) []))

/-- The code's row-admission predicate: movement type (trimmed) is exactly
`"101"` or `"201"`, the material cell is non-empty, and the quantity cell
does NOT parse to NaN — finite and infinite quantities both pass the `isNaN`
guard.  This differs from the finite predicate `specValidRow` exactly on the
`±Infinity` quantities. -/
def specValidRowFull (idx : ColumnIndices) (r : Row) : Bool :=
  match trimmedMovement idx r with
  | none => false
  | some mt =>
    (mt == "101" || mt == "201") && (rowMaterial idx r != "") && (rowQtyFull idx r).isSome

/-- A code-admitted row of movement type `mt` belonging to material `mat`. -/
def matchesRowFull (idx : ColumnIndices) (mt mat : String) (r : Row) : Bool :=
  specValidRowFull idx r && (trimmedMovement idx r == some mt) && (rowMaterial idx r == mat)

/-- The full-domain transactions contributed to `mat` by the admitted rows
of movement type `mt`, in input order. -/
def txsForFull (cc : String → Option String) (idx : ColumnIndices) (mt mat : String)
    (rows : List Row) : List FullTransaction :=
  rows.filterMap (fun r =>
    if matchesRowFull idx mt mat r
    then some (mkTransactionFull cc idx r ((rowQtyFull idx r).getD (JsNum.fin 0)))
    else none)

/-- Left-to-right `+=` of the raw quantities of the admitted 101-rows of
`mat`, starting from 0. -/
def qtyInSumFull (idx : ColumnIndices) (mat : String) (rows : List Row) : Option JsNum :=
  (rows.filterMap (fun r => if matchesRowFull idx "101" mat r then rowQtyFull idx r else none)).foldl
    (fun a q => jsAdd a (some q)) (some (JsNum.fin 0))

/-- Left-to-right `+=` of the absolute quantities of the admitted 201-rows
of `mat`, starting from 0. -/
def qtyOutSumFull (idx : ColumnIndices) (mat : String) (rows : List Row) : Option JsNum :=
  (rows.filterMap (fun r =>
    if matchesRowFull idx "201" mat r then (rowQtyFull idx r).map jsAbs else none)).foldl
    (fun a q => jsAdd a (some q)) (some (JsNum.fin 0))

/-- The first code-admitted row of material `mat` in the row stream. -/
def firstValidForFull (idx : ColumnIndices) (mat : String) (rows : List Row) : Option Row :=
  rows.find? (fun r => specValidRowFull idx r && (rowMaterial idx r == mat))

/-- The accumulator entry the full fold is expected to produce for `mat`. -/
def expectedDataFull (cc : String → Option String) (idx : ColumnIndices) (mat : String)
    (rows : List Row) : Option FullSummaryData :=
  (firstValidForFull idx mat rows).map (fun r0 =>
    { materialDescription := jsOr (getCell r0 idx.descriptionIdx) "No Description"
      totalIn := qtyInSumFull idx mat rows
      totalOut := qtyOutSumFull idx mat rows
      balance := some (JsNum.fin 0)
      unit := jsOr (getCell r0 idx.unitIdx) "N/A"
      inTransactions := txsForFull cc idx "101" mat rows
      outTransactions := txsForFull cc idx "201" mat rows })

/-! ### Lemmas about the full-domain association-list map -/

theorem alistLookupFull_append (m₁ m₂ : SMapFull) (k : String) :
    alistLookupFull (m₁ ++ m₂) k = (alistLookupFull m₁ k).or (alistLookupFull m₂ k) := by
  induction m₁ with
  | nil => simp [alistLookupFull]
  | cons p t ih =>
    obtain ⟨k₀, v₀⟩ := p
    by_cases h : k₀ = k
    · simp [alistLookupFull, h]
    · simp [alistLookupFull, h, ih]

theorem alistLookupFull_update (m : SMapFull) (k : String)
    (f : FullSummaryData → FullSummaryData) (k' : String) :
    alistLookupFull (alistUpdateFull m k f) k' =
      if k' = k then (alistLookupFull m k).map f else alistLookupFull m k' := by
  induction m with
  | nil => simp [alistLookupFull, alistUpdateFull]
  | cons p t ih =>
    obtain ⟨k₀, v₀⟩ := p
    by_cases h0 : k₀ = k
    · subst h0
      by_cases h1 : k₀ = k'
      · subst h1
        simp [alistLookupFull, alistUpdateFull]
      · simp [alistLookupFull, alistUpdateFull, h1, Ne.symm h1]
    · by_cases h1 : k₀ = k'
      · subst h1
        have hne : ¬ k₀ = k := h0
        simp [alistLookupFull, alistUpdateFull, hne, Ne.symm hne]
      · simp [alistLookupFull, alistUpdateFull, h0, h1, ih]

theorem alistUpdateFull_keys (m : SMapFull) (k : String)
    (f : FullSummaryData → FullSummaryData) :
    (alistUpdateFull m k f).map Prod.fst = m.map Prod.fst := by
  induction m with
  | nil => rfl
  | cons p t ih =>
    obtain ⟨k₀, v₀⟩ := p
    by_cases h : k₀ = k
    · simp [alistUpdateFull, h]
    · simp [alistUpdateFull, h, ih]

theorem alistLookupFull_eq_none_iff (m : SMapFull) (k : String) :
    alistLookupFull m k = none ↔ k ∉ m.map Prod.fst := by
  induction m with
  | nil => simp [alistLookupFull]
  | cons p t ih =>
    obtain ⟨k₀, v₀⟩ := p
    by_cases h : k₀ = k
    · simp [alistLookupFull, h]
    · simp [alistLookupFull, h, ih, Ne.symm h]

theorem alistLookupFull_of_mem (m : SMapFull) (k : String) (v : FullSummaryData)
    (hnd : (m.map Prod.fst).Nodup) (hm : (k, v) ∈ m) :
    alistLookupFull m k = some v := by
  induction m with
  | nil => simp at hm
  | cons p t ih =>
    obtain ⟨k₀, v₀⟩ := p
    simp only [List.map_cons, List.nodup_cons] at hnd
    rcases List.mem_cons.mp hm with h | h
    · rw [Prod.ext_iff] at h
      obtain ⟨h1, h2⟩ := h
      simp only at h1 h2
      subst h1
      subst h2
      simp [alistLookupFull]
    · have hk : k₀ ≠ k := by
        intro he
        exact hnd.1 (he ▸ (List.mem_map.mpr ⟨(k, v), h, rfl⟩))
      simp [alistLookupFull, hk, ih hnd.2 h]

/-! ### Behaviour of one loop iteration of the full pipeline -/

theorem processRowFull_not_valid (cc : String → Option String) (idx : ColumnIndices)
    (m : SMapFull) (r : Row) (h : specValidRowFull idx r = false) :
    processRowFull cc idx m r = m := by
  cases hmt : trimmedMovement idx r with
  | none => simp [processRowFull, hmt]
  | some mt =>
    by_cases hallow : mt = "101" ∨ mt = "201"
    · cases hq : rowQtyFull idx r with
      | none => simp [processRowFull, hmt, hallow, hq]
      | some q =>
        by_cases hmat : rowMaterial idx r = ""
        · simp [processRowFull, hmt, hallow, hq, hmat]
        · exfalso
          rcases hallow with h1 | h1 <;> subst h1 <;>
            simp [specValidRowFull, hmt, hq, hmat] at h
    · simp [processRowFull, hmt, hallow]

theorem processRowFull_valid_101 (cc : String → Option String) (idx : ColumnIndices)
    (m : SMapFull) (r : Row) (q : JsNum)
    (hmt : trimmedMovement idx r = some "101")
    (hq : rowQtyFull idx r = some q)
    (hmat : ¬ rowMaterial idx r = "") :
    processRowFull cc idx m r =
      alistUpdateFull
        (if (alistLookupFull m (rowMaterial idx r)).isSome then m
         else m ++ [(rowMaterial idx r, initSummaryFull idx r)])
        (rowMaterial idx r) (updInFull q (mkTransactionFull cc idx r q)) := by
  simp [processRowFull, hmt, hq, hmat]

theorem processRowFull_valid_201 (cc : String → Option String) (idx : ColumnIndices)
    (m : SMapFull) (r : Row) (q : JsNum)
    (hmt : trimmedMovement idx r = some "201")
    (hq : rowQtyFull idx r = some q)
    (hmat : ¬ rowMaterial idx r = "") :
    processRowFull cc idx m r =
      alistUpdateFull
        (if (alistLookupFull m (rowMaterial idx r)).isSome then m
         else m ++ [(rowMaterial idx r, initSummaryFull idx r)])
        (rowMaterial idx r) (updOutFull q (mkTransactionFull cc idx r q)) := by
  simp [processRowFull, hmt, hq, hmat]

/-! ### Decomposition of the full admission predicate -/

theorem specValidRowFull_parts (idx : ColumnIndices) (r : Row)
    (h : specValidRowFull idx r = true) :
    ∃ mt, trimmedMovement idx r = some mt ∧ (mt = "101" ∨ mt = "201")
      ∧ ¬ rowMaterial idx r = "" ∧ ∃ q, rowQtyFull idx r = some q := by
  cases hmt : trimmedMovement idx r with
  | none => simp [specValidRowFull, hmt] at h
  | some mt =>
    simp only [specValidRowFull, hmt] at h
    simp only [Bool.and_eq_true, Bool.or_eq_true, beq_iff_eq, bne_iff_ne, ne_eq,
      Option.isSome_iff_exists] at h
    exact ⟨mt, rfl, h.1.1, h.1.2, h.2⟩

theorem matchesRowFull_parts (idx : ColumnIndices) (mt mat : String) (r : Row)
    (h : matchesRowFull idx mt mat r = true) :
    specValidRowFull idx r = true ∧ trimmedMovement idx r = some mt
      ∧ rowMaterial idx r = mat := by
  simp only [matchesRowFull, Bool.and_eq_true, beq_iff_eq] at h
  exact ⟨h.1.1, h.1.2, h.2⟩

theorem matchesRowFull_false_of (idx : ColumnIndices) (mt mat : String) (r : Row)
    (h : (specValidRowFull idx r && (rowMaterial idx r == mat)) = false) :
    matchesRowFull idx mt mat r = false := by
  unfold matchesRowFull
  cases ha : specValidRowFull idx r <;> cases hc : (rowMaterial idx r == mat) <;>
    simp_all

/-! ### Snoc equations for the full expected-result functions -/

theorem firstValidForFull_snoc (idx : ColumnIndices) (mat : String) (rows : List Row)
    (r : Row) :
    firstValidForFull idx mat (rows ++ [r]) =
      (firstValidForFull idx mat rows).or
        (if specValidRowFull idx r && (rowMaterial idx r == mat) then some r else none) := by
  unfold firstValidForFull
  rw [List.find?_append]
  congr 1
  cases hpr : (specValidRowFull idx r && (rowMaterial idx r == mat)) <;>
    simp [List.find?, hpr]

theorem txsForFull_snoc (cc : String → Option String) (idx : ColumnIndices)
    (mt mat : String) (rows : List Row) (r : Row) :
    txsForFull cc idx mt mat (rows ++ [r]) = txsForFull cc idx mt mat rows ++
      (if matchesRowFull idx mt mat r
       then [mkTransactionFull cc idx r ((rowQtyFull idx r).getD (JsNum.fin 0))]
       else []) := by
  unfold txsForFull
  rw [List.filterMap_append]
  congr 1
  cases h : matchesRowFull idx mt mat r <;> simp [List.filterMap, h]

theorem qtyInSumFull_snoc (idx : ColumnIndices) (mat : String) (rows : List Row)
    (r : Row) :
    qtyInSumFull idx mat (rows ++ [r]) =
      if matchesRowFull idx "101" mat r
      then jsAdd (qtyInSumFull idx mat rows) (some ((rowQtyFull idx r).getD (JsNum.fin 0)))
      else qtyInSumFull idx mat rows := by
  unfold qtyInSumFull
  rw [List.filterMap_append, List.foldl_append]
  cases h : matchesRowFull idx "101" mat r
  · simp [List.filterMap, h]
  · obtain ⟨hval, _, _⟩ := matchesRowFull_parts idx "101" mat r h
    obtain ⟨mt, _, _, _, q, hq⟩ := specValidRowFull_parts idx r hval
    simp [List.filterMap, h, hq]

theorem qtyOutSumFull_snoc (idx : ColumnIndices) (mat : String) (rows : List Row)
    (r : Row) :
    qtyOutSumFull idx mat (rows ++ [r]) =
      if matchesRowFull idx "201" mat r
      then jsAdd (qtyOutSumFull idx mat rows)
            (some (jsAbs ((rowQtyFull idx r).getD (JsNum.fin 0))))
      else qtyOutSumFull idx mat rows := by
  unfold qtyOutSumFull
  rw [List.filterMap_append, List.foldl_append]
  cases h : matchesRowFull idx "201" mat r
  · simp [List.filterMap, h]
  · obtain ⟨hval, _, _⟩ := matchesRowFull_parts idx "201" mat r h
    obtain ⟨mt, _, _, _, q, hq⟩ := specValidRowFull_parts idx r hval
    simp [List.filterMap, h, hq]

/-! ### No admitted row yet: the full expected-result functions are trivial -/

theorem txsForFull_eq_nil (cc : String → Option String) (idx : ColumnIndices)
    (mt mat : String) (rows : List Row)
    (h : firstValidForFull idx mat rows = none) :
    txsForFull cc idx mt mat rows = [] := by
  rw [txsForFull, List.filterMap_eq_nil_iff]
  intro r hr
  have hp := List.find?_eq_none.mp h r hr
  rw [matchesRowFull_false_of idx mt mat r (by simpa using hp)]
  simp

theorem qtyInSumFull_eq_zero (idx : ColumnIndices) (mat : String) (rows : List Row)
    (h : firstValidForFull idx mat rows = none) :
    qtyInSumFull idx mat rows = some (JsNum.fin 0) := by
  rw [qtyInSumFull, List.filterMap_eq_nil_iff.mpr, List.foldl_nil]
  intro r hr
  have hp := List.find?_eq_none.mp h r hr
  rw [matchesRowFull_false_of idx "101" mat r (by simpa using hp)]
  simp

theorem qtyOutSumFull_eq_zero (idx : ColumnIndices) (mat : String) (rows : List Row)
    (h : firstValidForFull idx mat rows = none) :
    qtyOutSumFull idx mat rows = some (JsNum.fin 0) := by
  rw [qtyOutSumFull, List.filterMap_eq_nil_iff.mpr, List.foldl_nil]
  intro r hr
  have hp := List.find?_eq_none.mp h r hr
  rw [matchesRowFull_false_of idx "201" mat r (by simpa using hp)]
  simp

/-! ### The aggregation invariant of the full pipeline -/

theorem aggregateFull_invariant (cc : String → Option String) (idx : ColumnIndices)
    (rows : List Row) :
    (∀ mat, alistLookupFull (rows.foldl (processRowFull cc idx) []) mat
        = expectedDataFull cc idx mat rows)
    ∧ ((rows.foldl (processRowFull cc idx) []).map Prod.fst).Nodup := by
  induction rows using List.reverseRecOn with
  | nil =>
    refine ⟨fun mat => ?_, by simp⟩
    simp [alistLookupFull, expectedDataFull, firstValidForFull]
  | append_singleton rows r ih =>
    obtain ⟨ihL, ihN⟩ := ih
    rw [List.foldl_append]
    simp only [List.foldl_cons, List.foldl_nil]
    set M := rows.foldl (processRowFull cc idx) [] with hM
    by_cases hv : specValidRowFull idx r = true
    · obtain ⟨mt, hmt, hallow, hmat, q, hq⟩ := specValidRowFull_parts idx r hv
      rcases hallow with h1 | h1
      · -- movement type "101"
        subst h1
        rw [processRowFull_valid_101 cc idx M r q hmt hq hmat]
        have hm101self : matchesRowFull idx "101" (rowMaterial idx r) r = true := by
          simp [matchesRowFull, hv, hmt]
        have hm201self : matchesRowFull idx "201" (rowMaterial idx r) r = false := by
          simp [matchesRowFull, hmt]
        by_cases hsome : (alistLookupFull M (rowMaterial idx r)).isSome
        · rw [if_pos hsome]
          refine ⟨fun mat => ?_, ?_⟩
          · rw [alistLookupFull_update]
            by_cases hmm : mat = rowMaterial idx r
            · subst hmm
              rw [if_pos rfl]
              obtain ⟨v, hvv⟩ := Option.isSome_iff_exists.mp hsome
              rw [hvv]
              have hexp := ihL (rowMaterial idx r)
              rw [hvv] at hexp
              unfold expectedDataFull at hexp
              cases hfv : firstValidForFull idx (rowMaterial idx r) rows with
              | none => rw [hfv] at hexp; simp at hexp
              | some r0 =>
                rw [hfv] at hexp
                simp only [Option.map_some'] at hexp
                have hveq := Option.some.inj hexp
                simp only [expectedDataFull, firstValidForFull_snoc, hfv, Option.or,
                  Option.map_some']
                rw [hveq]
                simp [updInFull, qtyInSumFull_snoc, qtyOutSumFull_snoc, txsForFull_snoc,
                  hm101self, hm201self, hq]
            · rw [if_neg hmm]
              rw [ihL mat]
              have hpred : (specValidRowFull idx r && (rowMaterial idx r == mat)) = false := by
                simp only [hv, Bool.true_and, beq_eq_false_iff_ne, ne_eq]
                exact fun h => hmm h.symm
              have hmA := matchesRowFull_false_of idx "101" mat r hpred
              have hmB := matchesRowFull_false_of idx "201" mat r hpred
              simp [expectedDataFull, firstValidForFull_snoc, hpred, qtyInSumFull_snoc,
                qtyOutSumFull_snoc, txsForFull_snoc, hmA, hmB]
          · rw [alistUpdateFull_keys]
            exact ihN
        · rw [if_neg hsome]
          have hnone : alistLookupFull M (rowMaterial idx r) = none := by
            cases hc : alistLookupFull M (rowMaterial idx r)
            · rfl
            · rw [hc] at hsome; simp at hsome
          have hfv : firstValidForFull idx (rowMaterial idx r) rows = none := by
            have hexp := ihL (rowMaterial idx r)
            rw [hnone] at hexp
            unfold expectedDataFull at hexp
            cases hfv : firstValidForFull idx (rowMaterial idx r) rows
            · rfl
            · rw [hfv] at hexp; simp at hexp
          have h0in := qtyInSumFull_eq_zero idx (rowMaterial idx r) rows hfv
          have h0out := qtyOutSumFull_eq_zero idx (rowMaterial idx r) rows hfv
          have hnilIn := txsForFull_eq_nil cc idx "101" (rowMaterial idx r) rows hfv
          have hnilOut := txsForFull_eq_nil cc idx "201" (rowMaterial idx r) rows hfv
          refine ⟨fun mat => ?_, ?_⟩
          · rw [alistLookupFull_update]
            by_cases hmm : mat = rowMaterial idx r
            · subst hmm
              rw [if_pos rfl]
              rw [alistLookupFull_append, hnone, Option.none_or]
              have hpredT : (specValidRowFull idx r
                  && (rowMaterial idx r == rowMaterial idx r)) = true := by
                simp [hv]
              simp only [alistLookupFull, if_pos rfl, Option.map_some']
              simp only [expectedDataFull, firstValidForFull_snoc, hfv, Option.none_or,
                hpredT, if_true, Option.map_some']
              simp [updInFull, initSummaryFull, qtyInSumFull_snoc, qtyOutSumFull_snoc,
                txsForFull_snoc, hm101self, hm201self, hq, h0in, h0out, hnilIn, hnilOut]
            · rw [if_neg hmm]
              rw [alistLookupFull_append]
              have hsing : alistLookupFull [(rowMaterial idx r, initSummaryFull idx r)] mat
                  = none := by
                simp only [alistLookupFull]
                rw [if_neg (fun h => hmm h.symm)]
              rw [hsing, Option.or_none, ihL mat]
              have hpred : (specValidRowFull idx r && (rowMaterial idx r == mat)) = false := by
                simp only [hv, Bool.true_and, beq_eq_false_iff_ne, ne_eq]
                exact fun h => hmm h.symm
              have hmA := matchesRowFull_false_of idx "101" mat r hpred
              have hmB := matchesRowFull_false_of idx "201" mat r hpred
              simp [expectedDataFull, firstValidForFull_snoc, hpred, qtyInSumFull_snoc,
                qtyOutSumFull_snoc, txsForFull_snoc, hmA, hmB]
          · rw [alistUpdateFull_keys]
            have hnotin : rowMaterial idx r ∉ M.map Prod.fst :=
              (alistLookupFull_eq_none_iff M (rowMaterial idx r)).mp hnone
            simp only [List.map_append, List.map_cons, List.map_nil]
            rw [List.nodup_append]
            refine ⟨ihN, by simp, ?_⟩
            intro a ha hb
            simp only [List.mem_cons, List.not_mem_nil, or_false] at hb
            subst hb
            exact hnotin ha
      · -- movement type "201"
        subst h1
        rw [processRowFull_valid_201 cc idx M r q hmt hq hmat]
        have hm201self : matchesRowFull idx "201" (rowMaterial idx r) r = true := by
          simp [matchesRowFull, hv, hmt]
        have hm101self : matchesRowFull idx "101" (rowMaterial idx r) r = false := by
          simp [matchesRowFull, hmt]
        by_cases hsome : (alistLookupFull M (rowMaterial idx r)).isSome
        · rw [if_pos hsome]
          refine ⟨fun mat => ?_, ?_⟩
          · rw [alistLookupFull_update]
            by_cases hmm : mat = rowMaterial idx r
            · subst hmm
              rw [if_pos rfl]
              obtain ⟨v, hvv⟩ := Option.isSome_iff_exists.mp hsome
              rw [hvv]
              have hexp := ihL (rowMaterial idx r)
              rw [hvv] at hexp
              unfold expectedDataFull at hexp
              cases hfv : firstValidForFull idx (rowMaterial idx r) rows with
              | none => rw [hfv] at hexp; simp at hexp
              | some r0 =>
                rw [hfv] at hexp
                simp only [Option.map_some'] at hexp
                have hveq := Option.some.inj hexp
                simp only [expectedDataFull, firstValidForFull_snoc, hfv, Option.or,
                  Option.map_some']
                rw [hveq]
                simp [updOutFull, qtyInSumFull_snoc, qtyOutSumFull_snoc, txsForFull_snoc,
                  hm101self, hm201self, hq]
            · rw [if_neg hmm]
              rw [ihL mat]
              have hpred : (specValidRowFull idx r && (rowMaterial idx r == mat)) = false := by
                simp only [hv, Bool.true_and, beq_eq_false_iff_ne, ne_eq]
                exact fun h => hmm h.symm
              have hmA := matchesRowFull_false_of idx "101" mat r hpred
              have hmB := matchesRowFull_false_of idx "201" mat r hpred
              simp [expectedDataFull, firstValidForFull_snoc, hpred, qtyInSumFull_snoc,
                qtyOutSumFull_snoc, txsForFull_snoc, hmA, hmB]
          · rw [alistUpdateFull_keys]
            exact ihN
        · rw [if_neg hsome]
          have hnone : alistLookupFull M (rowMaterial idx r) = none := by
            cases hc : alistLookupFull M (rowMaterial idx r)
            · rfl
            · rw [hc] at hsome; simp at hsome
          have hfv : firstValidForFull idx (rowMaterial idx r) rows = none := by
            have hexp := ihL (rowMaterial idx r)
            rw [hnone] at hexp
            unfold expectedDataFull at hexp
            cases hfv : firstValidForFull idx (rowMaterial idx r) rows
            · rfl
            · rw [hfv] at hexp; simp at hexp
          have h0in := qtyInSumFull_eq_zero idx (rowMaterial idx r) rows hfv
          have h0out := qtyOutSumFull_eq_zero idx (rowMaterial idx r) rows hfv
          have hnilIn := txsForFull_eq_nil cc idx "101" (rowMaterial idx r) rows hfv
          have hnilOut := txsForFull_eq_nil cc idx "201" (rowMaterial idx r) rows hfv
          refine ⟨fun mat => ?_, ?_⟩
          · rw [alistLookupFull_update]
            by_cases hmm : mat = rowMaterial idx r
            · subst hmm
              rw [if_pos rfl]
              rw [alistLookupFull_append, hnone, Option.none_or]
              have hpredT : (specValidRowFull idx r
                  && (rowMaterial idx r == rowMaterial idx r)) = true := by
                simp [hv]
              simp only [alistLookupFull, if_pos rfl, Option.map_some']
              simp only [expectedDataFull, firstValidForFull_snoc, hfv, Option.none_or,
                hpredT, if_true, Option.map_some']
              simp [updOutFull, initSummaryFull, qtyInSumFull_snoc, qtyOutSumFull_snoc,
                txsForFull_snoc, hm101self, hm201self, hq, h0in, h0out, hnilIn, hnilOut]
            · rw [if_neg hmm]
              rw [alistLookupFull_append]
              have hsing : alistLookupFull [(rowMaterial idx r, initSummaryFull idx r)] mat
                  = none := by
                simp only [alistLookupFull]
                rw [if_neg (fun h => hmm h.symm)]
              rw [hsing, Option.or_none, ihL mat]
              have hpred : (specValidRowFull idx r && (rowMaterial idx r == mat)) = false := by
                simp only [hv, Bool.true_and, beq_eq_false_iff_ne, ne_eq]
                exact fun h => hmm h.symm
              have hmA := matchesRowFull_false_of idx "101" mat r hpred
              have hmB := matchesRowFull_false_of idx "201" mat r hpred
              simp [expectedDataFull, firstValidForFull_snoc, hpred, qtyInSumFull_snoc,
                qtyOutSumFull_snoc, txsForFull_snoc, hmA, hmB]
          · rw [alistUpdateFull_keys]
            have hnotin : rowMaterial idx r ∉ M.map Prod.fst :=
              (alistLookupFull_eq_none_iff M (rowMaterial idx r)).mp hnone
            simp only [List.map_append, List.map_cons, List.map_nil]
            rw [List.nodup_append]
            refine ⟨ihN, by simp, ?_⟩
            intro a ha hb
            simp only [List.mem_cons, List.not_mem_nil, or_false] at hb
            subst hb
            exact hnotin ha
    · have hvf : specValidRowFull idx r = false := by
        cases hvv : specValidRowFull idx r
        · rfl
        · exact absurd hvv hv
      rw [processRowFull_not_valid cc idx M r hvf]
      refine ⟨fun mat => ?_, ihN⟩
      rw [ihL mat]
      have hpred : (specValidRowFull idx r && (rowMaterial idx r == mat)) = false := by
        rw [hvf]
        simp
      have hmA := matchesRowFull_false_of idx "101" mat r hpred
      have hmB := matchesRowFull_false_of idx "201" mat r hpred
      simp [expectedDataFull, firstValidForFull_snoc, hpred, qtyInSumFull_snoc,
        qtyOutSumFull_snoc, txsForFull_snoc, hmA, hmB]

/-! ### Characterization of successful full-pipeline results -/

theorem processDataFull_ok_mem (cc : String → Option String) (resp : InventoryResponse)
    (res : List FullMaterialSummary) (h : processDataFull cc resp = Except.ok res)
    (s : FullMaterialSummary) (hs : s ∈ res) :
    ∃ v : FullSummaryData,
      expectedDataFull cc (mkIndices resp.headers) s.material resp.rows = some v
      ∧ s.materialDescription = v.materialDescription
      ∧ s.totalIn = v.totalIn
      ∧ s.totalOut = v.totalOut
      ∧ s.balance = jsSub v.totalIn v.totalOut
      ∧ s.unit = v.unit
      ∧ s.inTransactions = stableSort txCmpFull v.inTransactions
      ∧ s.outTransactions = stableSort txCmpFull v.outTransactions := by
  unfold processDataFull at h
  by_cases hcheck : (requiredColumns.map (jsIndexOf resp.headers)).any (fun i => i = -1)
  · rw [if_pos hcheck] at h
    cases h
  · rw [if_neg hcheck] at h
    have hres := Except.ok.inj h
    rw [← hres] at hs
    unfold finalizeFull at hs
    obtain ⟨p, hp, hps⟩ := List.mem_map.mp hs
    obtain ⟨hlook, hnd⟩ := aggregateFull_invariant cc (mkIndices resp.headers) resp.rows
    have hpm : (p.1, p.2)
        ∈ resp.rows.foldl (processRowFull cc (mkIndices resp.headers)) [] := by
      rw [Prod.mk.eta]
      exact hp
    have hl := alistLookupFull_of_mem _ p.1 p.2 hnd hpm
    rw [hlook p.1] at hl
    subst hps
    exact ⟨p.2, hl, rfl, rfl, rfl, rfl, rfl, rfl, rfl⟩

/-! ### C2: the admission rule -/

/-- A row admitted with a finite quantity. -/
def c2GoodRow : Row := ["M1", "Bolt", "10", "EA", "101"]

/-- Its Quantity cell parses to NaN, so this row is skipped. -/
def c2BadRow : Row := ["M2", "Nut", "x", "EA", "101"]

/-- Its Quantity cell parses to `Infinity`: not finite, yet not NaN, so the
code's `isNaN` guard admits it. -/
def c2InfRow : Row := ["M1", "Bolt", "Infinity", "EA", "101"]

/-- Three-row table: finite-quantity row, NaN row, Infinity row. -/
def c2Resp : InventoryResponse :=
  { headers := stdHeaders, rows := [c2GoodRow, c2BadRow, c2InfRow] }

/-- Placeholder used when a run does not produce the expected shape. -/
def fallbackFull : FullMaterialSummary :=
  { material := "", materialDescription := "", totalIn := none, totalOut := none,
    balance := none, unit := "", inTransactions := [], outTransactions := [] }

/-- The summary `processDataFull` actually produces for `c2Resp`. -/
def c2SummaryFull : FullMaterialSummary :=
  match processDataFull cc0 c2Resp with
  | Except.ok (s :: _) => s
  | _ => fallbackFull

theorem c2_run_full : processDataFull cc0 c2Resp = Except.ok [c2SummaryFull] := rfl

/-- C2 (corrected): a raw row is admitted iff its trimmed Movement Type is
exactly `"101"` or `"201"`, its Material cell is non-empty and its Quantity
cell does NOT parse to NaN (`specValidRowFull`) — finiteness is not required,
because the code's only quantity guard is `isNaN(quantity)` (line 426), which
admits `±Infinity`; any other row leaves the aggregation state unchanged (a
silent skip, not an error), and every summary's totals and transaction lists
are drawn exactly from the admitted rows of its material. -/
theorem c2_admission (cc : String → Option String) (resp : InventoryResponse)
    (res : List FullMaterialSummary) (h : processDataFull cc resp = Except.ok res) :
    (∀ (m : SMapFull) (r : Row), specValidRowFull (mkIndices resp.headers) r = false →
      processRowFull cc (mkIndices resp.headers) m r = m)
    ∧ ∀ s ∈ res,
        s.totalIn = qtyInSumFull (mkIndices resp.headers) s.material resp.rows
        ∧ s.totalOut = qtyOutSumFull (mkIndices resp.headers) s.material resp.rows
        ∧ s.inTransactions.Perm
            (txsForFull cc (mkIndices resp.headers) "101" s.material resp.rows)
        ∧ s.outTransactions.Perm
            (txsForFull cc (mkIndices resp.headers) "201" s.material resp.rows) := by
  constructor
  · intro m r hr
    exact processRowFull_not_valid cc (mkIndices resp.headers) m r hr
  · intro s hs
    obtain ⟨v, hv, _, hIn, hOut, _, _, hInTx, hOutTx⟩ :=
      processDataFull_ok_mem cc resp res h s hs
    unfold expectedDataFull at hv
    obtain ⟨r0, hr0, hvr⟩ := Option.map_eq_some'.mp hv
    have hvin : v.inTransactions
        = txsForFull cc (mkIndices resp.headers) "101" s.material resp.rows := by
      rw [← hvr]
    have hvout : v.outTransactions
        = txsForFull cc (mkIndices resp.headers) "201" s.material resp.rows := by
      rw [← hvr]
    have hvIn : v.totalIn
        = qtyInSumFull (mkIndices resp.headers) s.material resp.rows := by
      rw [← hvr]
    have hvOut : v.totalOut
        = qtyOutSumFull (mkIndices resp.headers) s.material resp.rows := by
      rw [← hvr]
    refine ⟨by rw [hIn, hvIn], by rw [hOut, hvOut], ?_, ?_⟩
    · rw [hInTx, hvin]
      exact stableSort_perm txCmpFull _
    · rw [hOutTx, hvout]
      exact stableSort_perm txCmpFull _

/-- Witness for C2: at the concrete run `c2Resp`, the NaN row is skipped and
the produced summary's totalIn is exactly the admitted rows' running sum
(which the Infinity row drives to `Infinity`). -/
theorem c2_witness :
    processRowFull cc0 (mkIndices stdHeaders) [] c2BadRow = []
      ∧ c2SummaryFull.totalIn
          = qtyInSumFull (mkIndices stdHeaders) c2SummaryFull.material c2Resp.rows :=
  ⟨(c2_admission cc0 c2Resp [c2SummaryFull] c2_run_full).1 [] c2BadRow (by decide),
   ((c2_admission cc0 c2Resp [c2SummaryFull] c2_run_full).2 c2SummaryFull
      (List.mem_cons_self _ _)).1⟩

/-- One-row table holding only the Infinity row. -/
def c2InfResp : InventoryResponse := { headers := stdHeaders, rows := [c2InfRow] }

/-- The summary `processDataFull` actually produces for `c2InfResp`. -/
def c2InfSummary : FullMaterialSummary :=
  match processDataFull cc0 c2InfResp with
  | Except.ok (s :: _) => s
  | _ => fallbackFull

/-- Counterexample to C2 as stated: the row `["M1","Bolt","Infinity","EA","101"]`
fails the claim's admission predicate (its quantity is not finite:
`specValidRow` is false and the finite pipeline drops it), yet the program
admits it — it passes `specValidRowFull`, the full pipeline produces a
summary for `"M1"` whose totalIn and balance are `Infinity`, and the row's
transaction appears in the in-list — so it is not the case that such a row
never appears in any total or transaction list. -/
theorem c2_counterexample :
    specValidRow (mkIndices stdHeaders) c2InfRow = false
    ∧ processData cc0 c2InfResp = Except.ok []
    ∧ specValidRowFull (mkIndices stdHeaders) c2InfRow = true
    ∧ processDataFull cc0 c2InfResp = Except.ok [c2InfSummary]
    ∧ c2InfSummary.material = "M1"
    ∧ c2InfSummary.totalIn = some JsNum.posInf
    ∧ c2InfSummary.balance = some JsNum.posInf
    ∧ c2InfSummary.inTransactions.map FullTransaction.quantity = [JsNum.posInf] :=
  ⟨rfl, rfl, rfl, rfl, rfl, rfl, rfl, rfl⟩

/-! ### C3: quantity normalization -/

/-- The accumulator entry the loop body reads (or freshly creates) for the
row's material. -/
def entryBefore (idx : ColumnIndices) (m : SMap) (r : Row) : SummaryData :=
  (alistLookup m (rowMaterial idx r)).getD (initSummary idx r)

/-- The loop body updates exactly the row's material: its old (or fresh)
entry gets the movement-specific accumulation applied. -/
theorem processRow_admitted_char (cc : String → Option String) (idx : ColumnIndices)
    (m : SMap) (r : Row) (q : ℚ)
    (hq : rowQty idx r = some q) (hmat : ¬ rowMaterial idx r = "") :
    (trimmedMovement idx r = some "101" →
      alistLookup (processRow cc idx m r) (rowMaterial idx r)
        = some (updIn q (mkTransaction cc idx r q) (entryBefore idx m r)))
    ∧ (trimmedMovement idx r = some "201" →
      alistLookup (processRow cc idx m r) (rowMaterial idx r)
        = some (updOut q (mkTransaction cc idx r q) (entryBefore idx m r))) := by
  have hbefore :
      alistLookup (if (alistLookup m (rowMaterial idx r)).isSome then m
        else m ++ [(rowMaterial idx r, initSummary idx r)]) (rowMaterial idx r)
      = some (entryBefore idx m r) := by
    by_cases hsome : (alistLookup m (rowMaterial idx r)).isSome
    · rw [if_pos hsome]
      obtain ⟨v, hvv⟩ := Option.isSome_iff_exists.mp hsome
      rw [hvv]
      simp [entryBefore, hvv]
    · rw [if_neg hsome]
      have hnone : alistLookup m (rowMaterial idx r) = none := by
        cases hc : alistLookup m (rowMaterial idx r)
        · rfl
        · rw [hc] at hsome; simp at hsome
      rw [alistLookup_append, hnone, Option.none_or]
      simp [alistLookup, entryBefore, hnone]
  refine ⟨fun hmt => ?_, fun hmt => ?_⟩
  · rw [processRow_valid_101 cc idx m r q hmt hq hmat, alistLookup_update, if_pos rfl,
      hbefore]
    rfl
  · rw [processRow_valid_201 cc idx m r q hmt hq hmat, alistLookup_update, if_pos rfl,
      hbefore]
    rfl

/-- C3: the stored transaction's quantity is `|q|`; a 101-row adds the raw
(possibly signed) `q` to `totalIn`, a 201-row adds `|q|` to `totalOut`. -/
theorem c3_quantity_normalization (cc : String → Option String) (idx : ColumnIndices)
    (m : SMap) (r : Row) (q : ℚ)
    (hq : rowQty idx r = some q) (hmat : ¬ rowMaterial idx r = "") :
    (mkTransaction cc idx r q).quantity = |q|
    ∧ (trimmedMovement idx r = some "101" →
        alistLookup (processRow cc idx m r) (rowMaterial idx r) = some
          { entryBefore idx m r with
              totalIn := (entryBefore idx m r).totalIn + q
              inTransactions :=
                (entryBefore idx m r).inTransactions ++ [mkTransaction cc idx r q] })
    ∧ (trimmedMovement idx r = some "201" →
        alistLookup (processRow cc idx m r) (rowMaterial idx r) = some
          { entryBefore idx m r with
              totalOut := (entryBefore idx m r).totalOut + |q|
              outTransactions :=
                (entryBefore idx m r).outTransactions ++ [mkTransaction cc idx r q] }) := by
  obtain ⟨h101, h201⟩ := processRow_admitted_char cc idx m r q hq hmat
  exact ⟨rfl, h101, h201⟩

/-- Witness for C3 at the concrete 101-row with quantity `-5`. -/
theorem c3_witness :
    (mkTransaction cc0 (mkIndices stdHeaders) c1Row (-5)).quantity = |(-5 : ℚ)|
    ∧ (trimmedMovement (mkIndices stdHeaders) c1Row = some "101" →
        alistLookup (processRow cc0 (mkIndices stdHeaders) [] c1Row)
            (rowMaterial (mkIndices stdHeaders) c1Row) = some
          { entryBefore (mkIndices stdHeaders) [] c1Row with
              totalIn := (entryBefore (mkIndices stdHeaders) [] c1Row).totalIn + (-5)
              inTransactions :=
                (entryBefore (mkIndices stdHeaders) [] c1Row).inTransactions
                  ++ [mkTransaction cc0 (mkIndices stdHeaders) c1Row (-5)] })
    ∧ (trimmedMovement (mkIndices stdHeaders) c1Row = some "201" →
        alistLookup (processRow cc0 (mkIndices stdHeaders) [] c1Row)
            (rowMaterial (mkIndices stdHeaders) c1Row) = some
          { entryBefore (mkIndices stdHeaders) [] c1Row with
              totalOut := (entryBefore (mkIndices stdHeaders) [] c1Row).totalOut + |(-5 : ℚ)|
              outTransactions :=
                (entryBefore (mkIndices stdHeaders) [] c1Row).outTransactions
                  ++ [mkTransaction cc0 (mkIndices stdHeaders) c1Row (-5)] }) :=
  c3_quantity_normalization cc0 (mkIndices stdHeaders) [] c1Row (-5)
    (by decide) (by decide)

/-! ### C9: blank quantity cells parse to zero -/

theorem jsTrim_blank (s : String) (h : s.toList.all jsSpace = true) : jsTrim s = "" := by
  unfold jsTrim
  have h1 : s.toList.dropWhile jsSpace = [] := by
    rw [List.dropWhile_eq_nil_iff]
    intro x hx
    exact List.all_eq_true.mp h x hx
  rw [h1]
  rfl

/-- C9: a row whose quantity cell is empty or whitespace-only parses to
quantity `0`: if the row is otherwise admissible it is admitted, its stored
transaction has quantity `0`, and the totals are unchanged. -/
theorem c9_blank_quantity (cc : String → Option String) (idx : ColumnIndices)
    (m : SMap) (r : Row) (qs : String)
    (hcell : getCell r idx.quantityIdx = some qs)
    (hblank : qs.toList.all jsSpace = true)
    (hmat : ¬ rowMaterial idx r = "") :
    rowQty idx r = some 0
    ∧ (mkTransaction cc idx r 0).quantity = 0
    ∧ (trimmedMovement idx r = some "101" →
        alistLookup (processRow cc idx m r) (rowMaterial idx r) = some
          { entryBefore idx m r with
              inTransactions :=
                (entryBefore idx m r).inTransactions ++ [mkTransaction cc idx r 0] })
    ∧ (trimmedMovement idx r = some "201" →
        alistLookup (processRow cc idx m r) (rowMaterial idx r) = some
          { entryBefore idx m r with
              outTransactions :=
                (entryBefore idx m r).outTransactions ++ [mkTransaction cc idx r 0] }) := by
  have htrim := jsTrim_blank qs hblank
  have hq : rowQty idx r = some 0 := by
    unfold rowQty
    rw [hcell]
    show jsNumber qs = some 0
    unfold jsNumber jsNumberFull
    rw [htrim]
    rfl
  obtain ⟨h101, h201⟩ := processRow_admitted_char cc idx m r 0 hq hmat
  refine ⟨hq, by simp [mkTransaction], fun hmt => ?_, fun hmt => ?_⟩
  · rw [h101 hmt]
    congr 1
    simp [updIn, SummaryData.mk.injEq]
  · rw [h201 hmt]
    congr 1
    simp [updOut, SummaryData.mk.injEq]

/-- A row whose quantity cell is whitespace-only. -/
def c9Row : Row := ["M3", "Washer", "   ", "EA", "201"]

/-- Witness for C9 at the concrete blank-quantity 201-row. -/
theorem c9_witness :
    rowQty (mkIndices stdHeaders) c9Row = some 0
    ∧ (mkTransaction cc0 (mkIndices stdHeaders) c9Row 0).quantity = 0
    ∧ (trimmedMovement (mkIndices stdHeaders) c9Row = some "101" →
        alistLookup (processRow cc0 (mkIndices stdHeaders) [] c9Row)
            (rowMaterial (mkIndices stdHeaders) c9Row) = some
          { entryBefore (mkIndices stdHeaders) [] c9Row with
              inTransactions :=
                (entryBefore (mkIndices stdHeaders) [] c9Row).inTransactions
                  ++ [mkTransaction cc0 (mkIndices stdHeaders) c9Row 0] })
    ∧ (trimmedMovement (mkIndices stdHeaders) c9Row = some "201" →
        alistLookup (processRow cc0 (mkIndices stdHeaders) [] c9Row)
            (rowMaterial (mkIndices stdHeaders) c9Row) = some
          { entryBefore (mkIndices stdHeaders) [] c9Row with
              outTransactions :=
                (entryBefore (mkIndices stdHeaders) [] c9Row).outTransactions
                  ++ [mkTransaction cc0 (mkIndices stdHeaders) c9Row 0] }) :=
  c9_blank_quantity cc0 (mkIndices stdHeaders) [] c9Row "   "
    (by decide) (by decide) (by decide)

/-! ### C4: description and unit sourcing -/

/-- First valid row for M1: its description cell is empty. -/
def c4RowA : Row := ["M1", "", "5", "EA", "101"]

/-- A later valid row for M1 with a non-empty description. -/
def c4RowB : Row := ["M1", "Bolt", "7", "EA", "101"]

/-- Table where the first valid row of `M1` has an empty description cell. -/
def c4Resp : InventoryResponse := { headers := stdHeaders, rows := [c4RowA, c4RowB] }

/-- The summary `processData` actually produces for `c4Resp`. -/
def c4Summary : MaterialSummary :=
  match processData cc0 c4Resp with
  | Except.ok (s :: _) => s
  | _ => fallbackSummary

theorem c4_run : processData cc0 c4Resp = Except.ok [c4Summary] := rfl

/-- C4 (amended): the description and unit of a summary come from the first
valid row of the material — description cell if non-empty, else the
placeholder `"No Description"` (unit likewise, placeholder `"N/A"`) — and
later valid rows never override them.  The original claim's "first non-empty
description seen" fails when the first valid row's description cell is empty. -/
theorem c4_first_row_description (cc : String → Option String)
    (resp : InventoryResponse) (res : List MaterialSummary)
    (h : processData cc resp = Except.ok res) :
    ∀ s ∈ res, ∃ r0,
      firstValidFor (mkIndices resp.headers) s.material resp.rows = some r0
      ∧ s.materialDescription
          = jsOr (getCell r0 (mkIndices resp.headers).descriptionIdx) "No Description"
      ∧ s.unit = jsOr (getCell r0 (mkIndices resp.headers).unitIdx) "N/A" := by
  intro s hs
  obtain ⟨v, hv, hDesc, _, _, _, hUnit, _, _⟩ := processData_ok_mem cc resp res h s hs
  unfold expectedData at hv
  obtain ⟨r0, hr0, hvr⟩ := Option.map_eq_some'.mp hv
  refine ⟨r0, hr0, ?_, ?_⟩
  · rw [hDesc, ← hvr]
  · rw [hUnit, ← hvr]

/-- C4, as frozen, is false: on `c4Resp` the first valid row's description is
empty, so the code stores the placeholder even though a later valid row has
the non-empty description `"Bolt"`. -/
theorem c4_counterexample :
    ¬ (∀ (cc : String → Option String) (resp : InventoryResponse)
        (res : List MaterialSummary),
        processData cc resp = Except.ok res →
        ∀ s ∈ res, s.materialDescription
          = specFirstNonEmptyDescription (mkIndices resp.headers) s.material resp.rows) := by
  intro hclaim
  have hx := hclaim cc0 c4Resp [c4Summary] c4_run c4Summary (List.mem_cons_self _ _)
  exact absurd hx (by decide)

/-- Witness for C4 (amended) at the concrete run `c4Resp`. -/
theorem c4_witness :
    ∃ r0, firstValidFor (mkIndices c4Resp.headers) c4Summary.material c4Resp.rows = some r0
      ∧ c4Summary.materialDescription
          = jsOr (getCell r0 (mkIndices c4Resp.headers).descriptionIdx) "No Description"
      ∧ c4Summary.unit = jsOr (getCell r0 (mkIndices c4Resp.headers).unitIdx) "N/A" :=
  c4_first_row_description cc0 c4Resp [c4Summary] c4_run c4Summary (List.mem_cons_self _ _)

/-! ### C5: transaction lists are sorted descending by posting date, stably -/

/-- C5: in every produced summary both transaction lists are sorted descending
by posting date (on rows whose posting dates parse as calendar dates), and
transactions with equal posting dates keep their input order: filtering either
list by any fixed date yields exactly the input-order extraction of that
date's rows. -/
theorem c5_sorted_transactions (cc : String → Option String)
    (resp : InventoryResponse) (res : List MaterialSummary)
    (h : processData cc resp = Except.ok res)
    (s : MaterialSummary) (hs : s ∈ res)
    (hin : ∀ t ∈ s.inTransactions, (jsDateValue t.postingDate).isSome = true)
    (hout : ∀ t ∈ s.outTransactions, (jsDateValue t.postingDate).isSome = true) :
    s.inTransactions.Pairwise
      (fun a b => (jsDateValue b.postingDate).getD 0 ≤ (jsDateValue a.postingDate).getD 0)
    ∧ s.outTransactions.Pairwise
      (fun a b => (jsDateValue b.postingDate).getD 0 ≤ (jsDateValue a.postingDate).getD 0)
    ∧ (∀ d : Int, s.inTransactions.filter (fun t => jsDateValue t.postingDate == some d)
        = (txsFor cc (mkIndices resp.headers) "101" s.material resp.rows).filter
            (fun t => jsDateValue t.postingDate == some d))
    ∧ (∀ d : Int, s.outTransactions.filter (fun t => jsDateValue t.postingDate == some d)
        = (txsFor cc (mkIndices resp.headers) "201" s.material resp.rows).filter
            (fun t => jsDateValue t.postingDate == some d)) := by
  obtain ⟨v, hv, _, _, _, _, _, hInTx, hOutTx⟩ := processData_ok_mem cc resp res h s hs
  unfold expectedData at hv
  obtain ⟨r0, hr0, hvr⟩ := Option.map_eq_some'.mp hv
  have hvin : v.inTransactions
      = txsFor cc (mkIndices resp.headers) "101" s.material resp.rows := by
    rw [← hvr]
  have hvout : v.outTransactions
      = txsFor cc (mkIndices resp.headers) "201" s.material resp.rows := by
    rw [← hvr]
  rw [hvin] at hInTx
  rw [hvout] at hOutTx
  have hin2 : ∀ t ∈ txsFor cc (mkIndices resp.headers) "101" s.material resp.rows,
      (txDateKey t).isSome = true := by
    intro t ht
    exact hin t (by rw [hInTx]; exact (stableSort_perm txCmp _).mem_iff.mpr ht)
  have hout2 : ∀ t ∈ txsFor cc (mkIndices resp.headers) "201" s.material resp.rows,
      (txDateKey t).isSome = true := by
    intro t ht
    exact hout t (by rw [hOutTx]; exact (stableSort_perm txCmp _).mem_iff.mpr ht)
  refine ⟨?_, ?_, ?_, ?_⟩
  · rw [hInTx]
    exact stableSort_sorted txDateKey _ hin2
  · rw [hOutTx]
    exact stableSort_sorted txDateKey _ hout2
  · intro d
    rw [hInTx]
    exact filter_stableSort txDateKey _ d
  · intro d
    rw [hOutTx]
    exact filter_stableSort txDateKey _ d

/-- Headers including the optional Posting Date column. -/
def c5Headers : List String :=
  ["Material", "Material Description", "Quantity", "Unit of Entry", "Movement Type",
   "Posting Date"]

/-- An older receipt. -/
def c5RowA : Row := ["M1", "Bolt", "1", "EA", "101", "2024-01-05"]

/-- A newer receipt, appearing later in the input. -/
def c5RowB : Row := ["M1", "Bolt", "2", "EA", "101", "2024-03-01"]

/-- Two dated receipts for the same material, in ascending date order. -/
def c5Resp : InventoryResponse := { headers := c5Headers, rows := [c5RowA, c5RowB] }

/-- The summary `processData` actually produces for `c5Resp`. -/
def c5Summary : MaterialSummary :=
  match processData cc0 c5Resp with
  | Except.ok (s :: _) => s
  | _ => fallbackSummary

theorem c5_run : processData cc0 c5Resp = Except.ok [c5Summary] := rfl

/-- Witness for C5 at the concrete run `c5Resp`. -/
theorem c5_witness :
    c5Summary.inTransactions.Pairwise
      (fun a b => (jsDateValue b.postingDate).getD 0 ≤ (jsDateValue a.postingDate).getD 0)
    ∧ c5Summary.outTransactions.Pairwise
      (fun a b => (jsDateValue b.postingDate).getD 0 ≤ (jsDateValue a.postingDate).getD 0)
    ∧ (∀ d : Int, c5Summary.inTransactions.filter
          (fun t => jsDateValue t.postingDate == some d)
        = (txsFor cc0 (mkIndices c5Resp.headers) "101" c5Summary.material
            c5Resp.rows).filter (fun t => jsDateValue t.postingDate == some d))
    ∧ (∀ d : Int, c5Summary.outTransactions.filter
          (fun t => jsDateValue t.postingDate == some d)
        = (txsFor cc0 (mkIndices c5Resp.headers) "201" c5Summary.material
            c5Resp.rows).filter (fun t => jsDateValue t.postingDate == some d)) :=
  c5_sorted_transactions cc0 c5Resp [c5Summary] c5_run c5Summary
    (List.mem_cons_self _ _) (by decide) (by decide)

/-! ### C6: pagination contract -/

/-- C6: `totalPages` is the ceiling of the base-filtered count over the page
size 12; `goToPage n` changes only `currentPage`, and only when
`1 ≤ n ≤ totalPages`; `nextPage` and `prevPage` delegate to `goToPage` with
the adjacent page numbers. -/
theorem c6_pagination (s : AppState) (n : Int) :
    totalPages s = ⌈((baseFilteredInventory s).length : ℚ) / (12 : ℚ)⌉
    ∧ goToPage n s = (if 1 ≤ n ∧ n ≤ totalPages s then { s with currentPage := n } else s)
    ∧ nextPage s = goToPage (s.currentPage + 1) s
    ∧ prevPage s = goToPage (s.currentPage - 1) s := by
  refine ⟨?_, ?_, rfl, rfl⟩
  · norm_num [totalPages, itemsPerPage]
  · unfold goToPage
    exact if_congr (by omega) rfl rfl

/-! ### C10: the paginated view never exceeds the page size -/

/-- C10: whatever the inventory data, filters, sort configuration and
`currentPage` value, the paginated view holds at most 12 items. -/
theorem c10_paginated_length (s : AppState) :
    (paginatedInventory s).length ≤ 12 := by
  unfold paginatedInventory
  refine le_trans (length_jsSlice _ _ _ (by unfold itemsPerPage; omega)) ?_
  have he : (s.currentPage - 1) * (itemsPerPage : Int) + (itemsPerPage : Int)
      - (s.currentPage - 1) * (itemsPerPage : Int) = (12 : Int) := by
    unfold itemsPerPage
    omega
  rw [he]
  rfl

/-! ### C7: missing required column is a hard schema error -/

theorem jsIndexOf_eq_neg_one_of_not_mem (l : List String) (s : String) (h : s ∉ l) :
    jsIndexOf l s = -1 := by
  induction l with
  | nil => rfl
  | cons x t ih =>
    simp only [List.mem_cons, not_or] at h
    have hx : ¬ x = s := fun hh => h.1 hh.symm
    simp [jsIndexOf, hx, ih h.2]

/-- C7: if any required column is absent from the headers, the load fails with
the schema error message (which names every required column), and the error
path of `loadInventory` leaves `inventoryData` exactly as it was. -/
theorem c7_schema_error (cc : String → Option String) (resp : InventoryResponse)
    (c : String) (hc : c ∈ requiredColumns) (habs : c ∉ resp.headers) :
    processData cc resp = Except.error schemaErrorMessage
    ∧ (∀ c2 ∈ requiredColumns, strContains schemaErrorMessage c2 = true)
    ∧ ∀ st : LoadState, (applyLoadResponse cc st resp).inventoryData = st.inventoryData := by
  have hidx : jsIndexOf resp.headers c = -1 := jsIndexOf_eq_neg_one_of_not_mem _ c habs
  have herr : processData cc resp = Except.error schemaErrorMessage := by
    unfold processData
    rw [if_pos ?hcond]
    case hcond =>
      refine List.any_eq_true.mpr ⟨jsIndexOf resp.headers c, List.mem_map_of_mem _ hc, ?_⟩
      simp [hidx]
  refine ⟨herr, by decide, fun st => ?_⟩
  unfold applyLoadResponse
  rw [herr]

/-- Headers with the required `Quantity` column missing. -/
def c7Resp : InventoryResponse :=
  { headers := ["Material", "Material Description", "Unit of Entry", "Movement Type"]
    rows := [] }

/-- Witness for C7 at a table whose headers lack `Quantity`. -/
theorem c7_witness :
    processData cc0 c7Resp = Except.error schemaErrorMessage
    ∧ (∀ c2 ∈ requiredColumns, strContains schemaErrorMessage c2 = true)
    ∧ ∀ st : LoadState, (applyLoadResponse cc0 st c7Resp).inventoryData = st.inventoryData :=
  c7_schema_error cc0 c7Resp "Quantity" (by decide) (by decide)

/-! ### C8: CSV field quoting -/

theorem strMk_toList (s : String) : String.mk s.toList = s := by
  cases s
  rfl

theorem undupQuotes_dupQuotes (l : List Char) : undupQuotes (dupQuotes l) = some l := by
  unfold undupQuotes
  induction l with
  | nil => rfl
  | cons c t ih =>
    by_cases hc : c = '"'
    · subst hc
      simp [dupQuotes, undupAux, ih]
    · simp [dupQuotes, undupAux, hc, ih]

theorem csvUnquote_csvQuote (s : String) : csvUnquote (csvQuote s) = some s := by
  have hlist : (csvQuote s).toList = '"' :: (dupQuotes s.toList ++ ['"']) := rfl
  unfold csvUnquote
  rw [hlist]
  show (if (dupQuotes s.toList ++ ['"']).getLast? = some '"'
      then (undupQuotes (dupQuotes s.toList ++ ['"']).dropLast).map String.mk
      else none) = some s
  rw [List.getLast?_concat, if_pos rfl, List.dropLast_concat, undupQuotes_dupQuotes]
  simp [strMk_toList]

/-- One data row of the inventory export: only the description is quoted. -/
def invRowLine (item : MaterialSummary) : String :=
  String.intercalate ","
    [item.material, csvQuote item.materialDescription, ratToString item.totalIn,
     ratToString item.totalOut, ratToString item.balance, item.unit]

/-- One data row of the transaction export: posting date and quantity raw,
the six text fields quoted, quantity negated for the outbound direction. -/
def txRowLine (kind : TxKind) (tx : Transaction) : String :=
  String.intercalate ","
    [(tx.postingDate).getD "",
     ratToString (if kind = TxKind.inbound then tx.quantity else -tx.quantity),
     csvQuote tx.user, csvQuote tx.costCenter, csvQuote tx.document,
     csvQuote tx.reservation, csvQuote tx.headerText, csvQuote tx.text]

/-- C8 (amended): in the inventory export only the description field is
quoted (material, unit and the numeric fields are raw); in the transaction
export the six text fields are quoted while posting date and the
sign-adjusted quantity are raw; fields join by commas and records by
newlines after the header row; quoting doubles internal quotes and is
reversible; an empty view produces no file. -/
theorem c8_export_format :
    (∀ s : String, csvUnquote (csvQuote s) = some s)
    ∧ csvQuote "He said \"hi\"" = "\"He said \"\"hi\"\"\""
    ∧ exportInventoryCsvText [] = none
    ∧ (∀ kind, exportTransactionsCsvText kind [] = none)
    ∧ (∀ item items, exportInventoryCsvText (item :: items)
        = some (String.intercalate "\n" (invHeaderLine :: (item :: items).map invRowLine)))
    ∧ (∀ kind tx txs, exportTransactionsCsvText kind (tx :: txs)
        = some (String.intercalate "\n"
            (txHeaderLine :: (tx :: txs).map (txRowLine kind)))) := by
  refine ⟨csvUnquote_csvQuote, by decide, rfl, fun kind => rfl, fun item items => rfl,
    fun kind tx txs => rfl⟩

/-- A summary row with plain string fields. -/
def c8Item : MaterialSummary :=
  { material := "M1", materialDescription := "Bolt", totalIn := 10, totalOut := 4,
    balance := 6, unit := "EA", inTransactions := [], outTransactions := [] }

/-- C8, as frozen, is false: the claim's reading (every string field quoted)
disagrees with the produced text already on a one-row inventory export, whose
material and unit fields are written unquoted. -/
theorem c8_counterexample :
    ¬ ((∀ items, exportInventoryCsvText items = specExportInventoryCsvText items)
       ∧ (∀ kind txs, exportTransactionsCsvText kind txs
            = specExportTransactionsCsvText kind txs)) := by
  intro hclaim
  exact absurd (hclaim.1 [c8Item]) (by decide)

end InvTracker
